import Mathlib

/-!
# Verification of samply against its specification

Shallow embedding of the core data structures and operations of the samply
repository (crates `fxprof-processed-profile`, `samply-symbols`, `samply-api`),
with theorems settling the specification claims about them.

Machine integers (`u32`, `u64`) are modelled as `Nat`; a `% 2 ^ 32` is applied
exactly where the Rust code performs a cast or a wrapping `u32` operation.
Fallible Rust code is modelled with `Except`, and a Rust panic is modelled as
the `Except.error` case of the embedding of the panicking function.
-/

namespace Samply

/-! ## `fxprof-processed-profile/src/libs_with_ranges.rs` -/

/-- Embeds `struct Mapping<T>` from `libs_with_ranges.rs`.
Fields `start_avma`, `end_avma` are `u64` in the source and
`relative_address_at_start` is `u32`; all are modelled as `Nat`. -/
structure Mapping (T : Type) where
  start_avma : Nat
  end_avma : Nat
  relative_address_at_start : Nat
  value : T
deriving DecidableEq, Repr

/-- Embeds `struct LibMappings<T>`: a vector of mappings kept sorted by
`start_avma`. -/
structure LibMappings (T : Type) where
  sorted_lib_ranges : List (Mapping T)
deriving DecidableEq, Repr

/-- Embeds Rust `slice::binary_search_by_key(&key, |r| r.start_avma)`.
`Sum.inl i` stands for `Ok(i)` (an element with this key sits at index `i`)
and `Sum.inr i` for `Err(i)` (the insertion index).  On a slice sorted
strictly by `start_avma` — the invariant `LibMappings` maintains, proved
below for all states reachable through the API — the result of Rust's
midpoint algorithm is uniquely determined: the candidate index is the number
of elements whose key is below the probe, and the probe is found exactly
when the element at that index carries the probe key. -/
def binarySearchByStart {T : Type} (a : Nat) (l : List (Mapping T)) : Sum Nat Nat :=
  let i := l.countP (fun r => r.start_avma < a)
  match l.get? i with
  | some r => if r.start_avma = a then Sum.inl i else Sum.inr i
  | none => Sum.inr i

/-- Embeds `LibMappings::new`. -/
def LibMappings.new (T : Type) : LibMappings T :=
  ⟨[]⟩

/-- Embeds `LibMappings::add_mapping` (`libs_with_ranges.rs` lines 36-65):
binary-search by `start_avma`; on an exact match remove the existing entry
first; insert the new entry at the found index. -/
def LibMappings.add_mapping {T : Type} (m : LibMappings T)
    (start_avma end_avma relative_address_at_start : Nat) (value : T) : LibMappings T :=
  match binarySearchByStart start_avma m.sorted_lib_ranges with
  | Sum.inl i =>
      ⟨(m.sorted_lib_ranges.eraseIdx i).insertIdx i
        ⟨start_avma, end_avma, relative_address_at_start, value⟩⟩
  | Sum.inr i =>
      ⟨m.sorted_lib_ranges.insertIdx i
        ⟨start_avma, end_avma, relative_address_at_start, value⟩⟩

/-- Embeds `LibMappings::remove_mapping`: retain the entries whose
`start_avma` differs from the argument. -/
def LibMappings.remove_mapping {T : Type} (m : LibMappings T) (start_avma : Nat) :
    LibMappings T :=
  ⟨m.sorted_lib_ranges.filter (fun r => r.start_avma ≠ start_avma)⟩

/-- Embeds `LibMappings::lookup` (`libs_with_ranges.rs` lines 72-87):
binary-search by `start_avma`; on `Err(0)` return `None`; on `Ok(i)` return
entry `i`; on `Err(i)` with `i > 0` return entry `i - 1` when `avma` is below
its `end_avma`, else `None`. -/
def LibMappings.lookup {T : Type} (m : LibMappings T) (avma : Nat) : Option (Mapping T) :=
  let ranges := m.sorted_lib_ranges
  match binarySearchByStart avma ranges with
  | Sum.inl i => ranges.get? i
  | Sum.inr 0 => none
  | Sum.inr (j + 1) =>
      match ranges.get? j with
      | some r => if avma < r.end_avma then some r else none
      | none => none

/-- Embeds `LibMappings::convert_address` (`libs_with_ranges.rs` lines 91-99).
The source computes `(avma - range.start_avma) as u32` (a truncating cast,
modelled by `% 2 ^ 32`) and then the `u32` addition
`relative_address_at_start + offset_from_mapping_start` (wrapping in release
mode, modelled by `% 2 ^ 32`). -/
def LibMappings.convert_address {T : Type} (m : LibMappings T) (avma : Nat) :
    Option (Nat × T) :=
  match m.lookup avma with
  | none => none
  | some range =>
      let offset_from_mapping_start := (avma - range.start_avma) % 2 ^ 32
      let relative_address :=
        (range.relative_address_at_start + offset_from_mapping_start) % 2 ^ 32
      some (relative_address, range.value)

/-- The entries are sorted strictly by `start_avma`. -/
def SortedByStart {T : Type} (l : List (Mapping T)) : Prop :=
  List.Pairwise (fun a b => a.start_avma < b.start_avma) l

/-- The mapping-table invariant stated by the spec and by claim C1: entries
sorted by `start_avma`, pairwise non-overlapping, each with
`start_avma < end_avma` and spanning less than 4 GiB.  For a list this is
captured by: any entry ends no later than a later entry starts. -/
def MappingsWellFormed {T : Type} (l : List (Mapping T)) : Prop :=
  List.Pairwise (fun a b => a.end_avma ≤ b.start_avma) l ∧
    ∀ e ∈ l, e.start_avma < e.end_avma ∧ e.end_avma - e.start_avma < 2 ^ 32

/-- The claim-C3 invariant exactly as the claim states it: sorted by
`start_avma` and pairwise non-overlapping (in either order). -/
def SortedNonOverlapping {T : Type} (l : List (Mapping T)) : Prop :=
  List.Pairwise (fun a b => a.start_avma ≤ b.start_avma) l ∧
    List.Pairwise (fun a b => a.end_avma ≤ b.start_avma ∨ b.end_avma ≤ a.start_avma) l

/-- One `LibMappings` API call, for stating invariants over operation
sequences. -/
inductive MapOp (T : Type) where
  | add (start_avma end_avma relative_address_at_start : Nat) (value : T)
  | remove (start_avma : Nat)
deriving DecidableEq, Repr

/-- Apply one API call to a `LibMappings` state. -/
def applyOp {T : Type} (m : LibMappings T) : MapOp T → LibMappings T
  | MapOp.add s e r v => m.add_mapping s e r v
  | MapOp.remove s => m.remove_mapping s

/-- Run a sequence of API calls from the empty table. -/
def runOps {T : Type} (ops : List (MapOp T)) : LibMappings T :=
  ops.foldl applyOp (LibMappings.new T)

/-- An `add` operation with `start_avma < end_avma` (any `remove` is fine). -/
def addOk {T : Type} : MapOp T → Prop
  | MapOp.add s e _ _ => s < e
  | MapOp.remove _ => True

instance addOkDecidable {T : Type} (op : MapOp T) : Decidable (addOk op) :=
  match op with
  | MapOp.add s e _ _ => inferInstanceAs (Decidable (s < e))
  | MapOp.remove _ => inferInstanceAs (Decidable True)

/-- Each `add` in the sequence satisfies the `start_avma < end_avma`
precondition of claim C3. -/
def AddsWellFormed {T : Type} (ops : List (MapOp T)) : Prop :=
  ∀ op ∈ ops, addOk op

/-- Concrete table for evaluating the C1 characterization. -/
def demoRanges : List (Mapping Nat) :=
  [⟨0x1000, 0x2000, 0, 10⟩, ⟨0x2000, 0x3000, 0x1000, 20⟩]

/-- Concrete table with an entry whose `start_avma` will be re-added, for
evaluating last-write-wins (C2). -/
def demoTable : LibMappings Nat :=
  ⟨[⟨0x1000, 0x2000, 0, 99⟩]⟩

/-- Two adds whose ranges overlap without sharing a start, for refuting the
non-overlap half of claim C3. -/
def overlapOps : List (MapOp Nat) :=
  [MapOp.add 0x1000 0x2000 0 1, MapOp.add 0x1500 0x1600 0 2]

/-- The full characterization of `convert_address` claimed by C1 for a table
with entries `l`: a `some (rel, v)` answer corresponds exactly to an entry
containing `avma`, with `rel` the `u32` sum of the entry's
`relative_address_at_start` and the offset from its start, and `v` its value;
the containing entry is unique; and the answer is `none` exactly when no
entry contains `avma`. -/
def ConvertCharacterization {T : Type} (l : List (Mapping T)) (avma : Nat) : Prop :=
  (∀ rel v, (LibMappings.mk l).convert_address avma = some (rel, v) ↔
      ∃ e ∈ l, e.start_avma ≤ avma ∧ avma < e.end_avma ∧
        rel = (e.relative_address_at_start + (avma - e.start_avma)) % 2 ^ 32 ∧
        v = e.value) ∧
    (∀ e ∈ l, ∀ e2 ∈ l,
      e.start_avma ≤ avma → avma < e.end_avma →
      e2.start_avma ≤ avma → avma < e2.end_avma → e = e2) ∧
    ((LibMappings.mk l).convert_address avma = none ↔
      ∀ e ∈ l, ¬(e.start_avma ≤ avma ∧ avma < e.end_avma))

/-! ## `samply-symbols/src/shared.rs`: the byte-slice `FileContents` impl -/

/-- The `std::io::ErrorKind` values relevant to the byte-slice
`FileContents` implementation. -/
inductive IOErrorKind where
  | unexpectedEof
  | invalidInput
  | notFound
deriving DecidableEq, Repr

/-- A `FileAndPathHelperError` (`Box<dyn Error>`): either a wrapped
`std::io::Error` with its kind and message, or a plain string error. -/
inductive FileError where
  | io (kind : IOErrorKind) (msg : String)
  | boxedStr (msg : String)
deriving DecidableEq, Repr

/-- Embeds `<T as FileContents>::read_bytes_at` for byte slices
(`shared.rs` lines 419-429): `get(offset..)` succeeds iff `offset ≤ len`,
then `get(..size)` succeeds iff `size` fits; combined, success iff
`offset + size ≤ len`, else an `UnexpectedEof` I/O error. -/
def read_bytes_at (data : List Nat) (offset size : Nat) : Except FileError (List Nat) :=
  if offset + size ≤ data.length then
    Except.ok ((data.drop offset).take size)
  else
    Except.error (FileError.io IOErrorKind.unexpectedEof
      "FileContents::read_bytes_at for &[u8] was called with out-of-range indexes")

/-- Embeds `<T as FileContents>::read_bytes_at_until` for byte slices
(`shared.rs` lines 431-448): reject inverted ranges, read the range,
then `memchr` the delimiter; a missing delimiter is an `InvalidInput`
I/O error. -/
def read_bytes_at_until (data : List Nat) (startIdx endIdx delimiter : Nat) :
    Except FileError (List Nat) :=
  if endIdx < startIdx then
    Except.error (FileError.boxedStr "Invalid range in read_bytes_at_until")
  else
    match read_bytes_at data startIdx (endIdx - startIdx) with
    | Except.error e => Except.error e
    | Except.ok slice =>
        match slice.findIdx? (fun b => b = delimiter) with
        | some pos => Except.ok (slice.take pos)
        | none =>
            Except.error (FileError.io IOErrorKind.invalidInput "Delimiter not found")

/-- The I/O error kind of a failed read, if any. -/
def errKind : Except FileError (List Nat) → Option IOErrorKind
  | Except.error (FileError.io k _) => some k
  | _ => none

/-! ## `samply-symbols/src/symbol_map_string_interner.rs` -/

/-- Embeds `SymbolMapStringHandle`.  `SymbolMapGeneration` (defined outside
the provided sources) is an equality-comparable token; it is modelled as a
`Nat`.  `index` is a `u32`. -/
structure SymbolMapStringHandle where
  generation : Nat
  index : Nat
deriving DecidableEq, Repr

/-- Embeds `SymbolMapStringInterner`.  The two Rust hash maps
`index_for_borrowed_string` / `index_for_owned_string` are modelled as
association lists with newest-first lookup (`HashMap::insert` overwrite
semantics). -/
structure SymbolMapStringInterner where
  symbol_map_generation : Nat
  borrowed_strings : List String
  index_for_borrowed_string : List (String × Nat)
  owned_strings : List String
  index_for_owned_string : List (String × Nat)
deriving DecidableEq, Repr

/-- Embeds `SymbolMapStringInterner::handle`. -/
def SymbolMapStringInterner.handle (it : SymbolMapStringInterner) (index : Nat) :
    SymbolMapStringHandle :=
  ⟨it.symbol_map_generation, index⟩

/-- Embeds `SymbolMapStringInterner::intern_inner`: an index already present
in either map is re-encoded (`i << 1` resp. `(i << 1) | 1`, `u32`
arithmetic); a fresh string is pushed onto `borrowed_strings` and recorded
in the borrowed map at position `len` (`len as u32`). -/
def SymbolMapStringInterner.intern_inner (it : SymbolMapStringInterner) (s : String) :
    SymbolMapStringInterner × Nat :=
  match it.index_for_borrowed_string.lookup s with
  | some i => (it, (i <<< 1) % 2 ^ 32)
  | none =>
      match it.index_for_owned_string.lookup s with
      | some i => (it, ((i <<< 1) % 2 ^ 32) ||| 1)
      | none =>
          let index := it.borrowed_strings.length % 2 ^ 32
          ({ it with
              borrowed_strings := it.borrowed_strings ++ [s],
              index_for_borrowed_string := (s, index) :: it.index_for_borrowed_string },
            (index <<< 1) % 2 ^ 32)

/-- Embeds `SymbolMapStringInterner::intern`. -/
def SymbolMapStringInterner.intern (it : SymbolMapStringInterner) (s : String) :
    SymbolMapStringInterner × SymbolMapStringHandle :=
  match it.intern_inner s with
  | (it2, index) => (it2, it2.handle index)

/-- Embeds `SymbolMapStringInterner::intern_owned_inner`. -/
def SymbolMapStringInterner.intern_owned_inner (it : SymbolMapStringInterner) (s : String) :
    SymbolMapStringInterner × Nat :=
  match it.index_for_borrowed_string.lookup s with
  | some i => (it, (i <<< 1) % 2 ^ 32)
  | none =>
      match it.index_for_owned_string.lookup s with
      | some i => (it, ((i <<< 1) % 2 ^ 32) ||| 1)
      | none =>
          let index := it.owned_strings.length % 2 ^ 32
          ({ it with
              owned_strings := it.owned_strings ++ [s],
              index_for_owned_string := (s, index) :: it.index_for_owned_string },
            ((index <<< 1) % 2 ^ 32) ||| 1)

/-- Embeds `SymbolMapStringInterner::intern_owned`. -/
def SymbolMapStringInterner.intern_owned (it : SymbolMapStringInterner) (s : String) :
    SymbolMapStringInterner × SymbolMapStringHandle :=
  match it.intern_owned_inner s with
  | (it2, index) => (it2, it2.handle index)

/-- Embeds `SymbolMapStringInterner::resolve` (`symbol_map_string_interner.rs`
lines 139-156).  The `assert_eq!` on the generations panics on a foreign
handle; the panic is modelled as `Except.error` with the assertion message.
An even index reads `borrowed_strings`, an odd one `owned_strings`, at
`index >> 1`. -/
def SymbolMapStringInterner.resolve (it : SymbolMapStringInterner)
    (h : SymbolMapStringHandle) : Except String (Option String) :=
  if h.generation = it.symbol_map_generation then
    Except.ok
      (if h.index % 2 = 0 then it.borrowed_strings.get? (h.index / 2)
       else it.owned_strings.get? (h.index / 2))
  else
    Except.error "Attempting to resolve handle from different symbol map"

/-- Coherence invariant of an interner, true of every reachable state: each
map entry points at the vector slot holding its string, and the vectors are
small enough that the `u32` index arithmetic cannot wrap. -/
def InternerWf (it : SymbolMapStringInterner) : Prop :=
  (∀ s i, it.index_for_borrowed_string.lookup s = some i →
      it.borrowed_strings.get? i = some s) ∧
    (∀ s i, it.index_for_owned_string.lookup s = some i →
      it.owned_strings.get? i = some s) ∧
    it.borrowed_strings.length < 2 ^ 31 ∧ it.owned_strings.length < 2 ^ 31

/-- A fresh interner of a given generation (`SymbolMapStringInterner::new`). -/
def SymbolMapStringInterner.newInterner (g : Nat) : SymbolMapStringInterner :=
  ⟨g, [], [], [], []⟩

/-- The interner state after interning "foo" into a fresh generation-1
interner. -/
def internDemo : SymbolMapStringInterner :=
  ⟨1, ["foo"], [("foo", 0)], [], []⟩

/-- The interner state after intern_owned of "bar" into a fresh generation-1
interner. -/
def ownedDemo : SymbolMapStringInterner :=
  ⟨1, [], [], ["bar"], [("bar", 0)]⟩

/-! ## `samply-symbols/src/lib.rs`: `SymbolManager::load_symbol_map` -/

/-- The `samply_symbols::Error` kinds used by `SymbolManager::load_symbol_map`
(`lib.rs` lines 241-290).  The enum itself is declared in `error.rs`, which is
not among the provided sources; the constructors below are the ones named by
`lib.rs`, with every other kind collapsed into `otherError`.  `DebugId` is an
equality-comparable identifier, modelled as `Nat`. -/
inductive SymError where
  | helperErrorDuringGetCandidatePathsForDebugFile
      (debug_name : String) (debug_id : Nat) (msg : String)
  | unmatchedDebugId (found requested : Nat)
  | noCandidatePathForBinary (debug_name : Option String) (debug_id : Option Nat)
  | otherError (msg : String)
deriving DecidableEq, Repr

/-- A parsed symbol map, as far as the candidate walk observes it: its
`debug_id` plus opaque content. -/
structure SymbolMapModel where
  debug_id : Nat
  content : Nat
deriving DecidableEq, Repr

/-- The candidate loop of `load_symbol_map`: candidates are tried in order
(`load` abstracts `load_symbol_map_from_path` / the dyld-cache loader); an
`Ok` with matching `debug_id` returns immediately; an `Ok` with the wrong id
records `UnmatchedDebugId(found, requested)` in `last_err` and continues; an
`Err` records itself; an exhausted list returns `last_err`, or
`NoCandidatePathForBinary` when no candidate was ever offered. -/
def loadSymbolMapLoop {α : Type} (debug_name : String) (debug_id : Nat)
    (load : α → Except SymError SymbolMapModel) :
    List α → Option SymError → Except SymError SymbolMapModel
  | [], last_err =>
      Except.error (last_err.getD
        (SymError.noCandidatePathForBinary (some debug_name) (some debug_id)))
  | c :: cs, last_err =>
      match load c with
      | Except.ok symbol_map =>
          if symbol_map.debug_id = debug_id then Except.ok symbol_map
          else loadSymbolMapLoop debug_name debug_id load cs
            (some (SymError.unmatchedDebugId symbol_map.debug_id debug_id))
      | Except.error e => loadSymbolMapLoop debug_name debug_id load cs (some e)

/-- Embeds `SymbolManager::load_symbol_map`: wrap a helper failure in
`HelperErrorDuringGetCandidatePathsForDebugFile`, else run the candidate
loop with no recorded error. -/
def load_symbol_map {α : Type} (debug_name : String) (debug_id : Nat)
    (get_candidate_paths : Except String (List α))
    (load : α → Except SymError SymbolMapModel) : Except SymError SymbolMapModel :=
  match get_candidate_paths with
  | Except.error e =>
      Except.error
        (SymError.helperErrorDuringGetCandidatePathsForDebugFile debug_name debug_id e)
  | Except.ok candidate_paths_for_binary =>
      loadSymbolMapLoop debug_name debug_id load candidate_paths_for_binary none

/-- A candidate that parses successfully with the requested `debug_id`. -/
def goodCandidate {α : Type} (debug_id : Nat)
    (load : α → Except SymError SymbolMapModel) (c : α) : Bool :=
  match load c with
  | Except.ok m => m.debug_id == debug_id
  | Except.error _ => false

/-- The error observed while trying one candidate: the parse error itself,
or `UnmatchedDebugId(found, requested)` for a parse with the wrong id. -/
def observedError {α : Type} (debug_id : Nat)
    (load : α → Except SymError SymbolMapModel) (c : α) : SymError :=
  match load c with
  | Except.ok m => SymError.unmatchedDebugId m.debug_id debug_id
  | Except.error e => e

/-- Specification-side description of the candidate walk, written from claim
C4: return the first id-matched successful parse; otherwise the error
observed for the last candidate; `NoCandidatePathForBinary` when no
candidates were offered. -/
def loadSymbolMapSpec {α : Type} (debug_name : String) (debug_id : Nat)
    (load : α → Except SymError SymbolMapModel) (cands : List α) :
    Except SymError SymbolMapModel :=
  match cands.find? (goodCandidate debug_id load) with
  | some c =>
      match load c with
      | Except.ok m => Except.ok m
      | Except.error e => Except.error e
  | none =>
      match cands.getLast? with
      | none =>
          Except.error
            (SymError.noCandidatePathForBinary (some debug_name) (some debug_id))
      | some c => Except.error (observedError debug_id load c)

/-! ## `samply-api/src/symbolicate`: request/response engine -/

/-- Modelled from the spec: a library identity (`request_json.rs` is not
among the provided sources) is a debug-name string plus a breakpad id. -/
structure Lib where
  debug_name : String
  breakpad_id : String
deriving DecidableEq, Repr

/-- Modelled from the spec: a request frame is `(module_index, address)`
(both `u32`). -/
structure RequestFrame where
  module_index : Nat
  address : Nat
deriving DecidableEq, Repr

/-- Modelled from the spec: a stack is a list of frames. -/
structure RequestStack where
  frames : List RequestFrame
deriving DecidableEq, Repr

/-- Modelled from the spec: a job is a memory map (ordered library list)
plus a list of stacks. -/
structure Job where
  memory_map : List Lib
  stacks' : List RequestStack
deriving DecidableEq, Repr

/-- Modelled from the spec: a request is a list of jobs (`Request::jobs`;
the single-job shorthand is normalized before processing). -/
structure Request where
  jobs : List Job
deriving DecidableEq, Repr

/-- The JSON tree a serde serializer emits; object fields are kept in
emission order. -/
inductive Json where
  | str (s : String)
  | num (n : Nat)
  | bool (b : Bool)
  | arr (elems : List Json)
  | obj (fields : List (String × Json))
deriving Repr

/-- Look a key up in a serialized JSON object. -/
def jGet : Json → String → Option Json
  | Json.obj fields, key => (fields.find? (fun p => p.1 = key)).map (fun p => p.2)
  | _, _ => none

/-- Embeds `FrameDebugInfo` as used by the response serializer: optional
function-name handle, source-file-path handle and line number (handles and
`u32` line numbers modelled as `Nat`). -/
structure FrameDebugInfo where
  function : Option Nat
  file_path : Option Nat
  line_number : Option Nat
deriving DecidableEq, Repr

/-- Embeds `SymbolInfo` as used by the response serializer: relative
address, optional size, and a symbol-name handle. -/
structure SymbolInfo where
  address : Nat
  size : Option Nat
  name : Nat
deriving DecidableEq, Repr

/-- Embeds `AddressResult` (`looked_up_addresses.rs` lines 5-11). -/
structure AddressResult where
  symbol : SymbolInfo
  function_name : Option Nat
  inline_frames : Option (List FrameDebugInfo)
deriving DecidableEq, Repr

/-- Embeds `AddressResult::set_debug_info` (`looked_up_addresses.rs` lines
22-28): store the outer (last) frame function name from debug info, and
the whole innermost-first list as the inline frames. -/
def AddressResult.set_debug_info (ar : AddressResult)
    (frames : List FrameDebugInfo) : AddressResult :=
  { ar with
      function_name := frames.getLast?.bind (fun f => f.function),
      inline_frames := some frames }

/-- The `SymbolMapTrait` resolve methods the serializer calls (their
implementations live outside the provided sources; they are carried as
abstract functions). -/
structure SymbolMapView where
  resolve_function_name : Nat → String
  resolve_symbol_name : Nat → String
  resolve_source_file_path : Nat → String

/-- Serializer environment: `to_api_file_path` (`api_file_path.rs`, not
among the provided sources) and the two `Error` projections
`enum_as_string` / `Display` used by `Error::serialize` (`error.rs`, not
among the provided sources). -/
structure SerCtx where
  to_api_file_path : String → String
  error_name : SymError → String
  error_message : SymError → String

/-- Embeds `PerModuleResultsRef`: the per-library `AddressResults`
(`BTreeMap<u32, Option<AddressResult>>`, modelled as an association list)
and the symbol-map view. -/
structure PerModuleResults where
  address_results : List (Nat × Option AddressResult)
  symbol_map : SymbolMapView

/-- Association-list lookup keyed by `Nat` (models `HashMap::get` /
`BTreeMap::get`). -/
def aLookup {β : Type} (l : List (Nat × β)) (k : Nat) : Option β :=
  (l.find? (fun p => p.1 = k)).map (fun p => p.2)

/-- Association-list lookup keyed by `String`. -/
def sLookup {β : Type} (l : List (String × β)) (k : String) : Option β :=
  (l.find? (fun p => p.1 = k)).map (fun p => p.2)

/-- `HashMap::insert` on the association-list model: overwrite an existing
key in place, else append. -/
def insertA {β : Type} (l : List (String × β)) (k : String) (v : β) :
    List (String × β) :=
  if l.any (fun p => p.1 = k) then
    l.map (fun p => if p.1 = k then (k, v) else p)
  else l ++ [(k, v)]

/-- Embeds `SerializeAsHexStr`: a `0x`-prefixed lower-case hex string
(`format_args!("{:#x}", ..)` padded with nothing). -/
def serializeAsHexStr (n : Nat) : String :=
  "0x" ++ (Nat.toDigits 16 n).asString

/-- Embeds `Error::serialize` (`response_json.rs` lines 317-329): an object
with the stable kind string under `name` and the display text under
`message`. -/
def serializeError (ctx : SerCtx) (e : SymError) : Json :=
  Json.obj [("name", Json.str (ctx.error_name e)),
            ("message", Json.str (ctx.error_message e))]

/-- Embeds `ResponseInlineFrame::serialize` (`response_json.rs` lines
283-304): optional `function`, `file`, `line` fields (a zero line number is
dropped by `NonZeroU32::new`). -/
def serializeInlineFrame (ctx : SerCtx) (sm : SymbolMapView)
    (inline : FrameDebugInfo) : Json :=
  Json.obj
    ((match inline.function with
      | some h => [("function", Json.str (sm.resolve_function_name h))]
      | none => []) ++
     (match inline.file_path with
      | some f => [("file", Json.str (ctx.to_api_file_path (sm.resolve_source_file_path f)))]
      | none => []) ++
     (match inline.line_number with
      | some line => if line ≠ 0 then [("line", Json.num line)] else []
      | none => []))

/-- Embeds `ResponseFrame::serialize` (`response_json.rs` lines 202-266).
The three Rust panics are modelled as `Except.error`: the unchecked
`memory_map[module_index]` indexing, the `unwrap` on the per-address
result, and the `expect` on an empty `inline_frames` list. -/
def serializeResponseFrame (ctx : SerCtx) (index : Nat) (frame : RequestFrame)
    (memory_map : List Lib)
    (symbols_by_module_index : List (Nat × PerModuleResults)) :
    Except String Json :=
  match memory_map.get? frame.module_index with
  | none => Except.error "index out of bounds: the len is the memory map length but the index is the frame module index"
  | some lib =>
      let base := [("frame", Json.num index),
                   ("module_offset", Json.str (serializeAsHexStr frame.address)),
                   ("module", Json.str lib.debug_name)]
      match aLookup symbols_by_module_index frame.module_index with
      | none => Except.ok (Json.obj base)
      | some symbol_map =>
          match aLookup symbol_map.address_results frame.address with
          | none => Except.error "called Option::unwrap on a None value"
          | some none => Except.ok (Json.obj base)
          | some (some address_result) =>
              let function_name :=
                match address_result.function_name with
                | some h => symbol_map.symbol_map.resolve_function_name h
                | none =>
                    symbol_map.symbol_map.resolve_symbol_name address_result.symbol.name
              let fields1 := base ++
                [("function", Json.str function_name),
                 ("function_offset",
                   Json.str (serializeAsHexStr
                     (frame.address - address_result.symbol.address)))]
              let fields2 := fields1 ++
                (match address_result.symbol.size with
                 | some function_size =>
                     [("function_size", Json.str (serializeAsHexStr function_size))]
                 | none => [])
              match address_result.inline_frames with
              | none => Except.ok (Json.obj fields2)
              | some frames =>
                  match frames.getLast? with
                  | none =>
                      Except.error "inline_frames should always have at least one element"
                  | some outer =>
                      let inlines := frames.dropLast
                      let fields3 := fields2 ++
                        (match outer.file_path with
                         | some f =>
                             [("file", Json.str (ctx.to_api_file_path
                               (symbol_map.symbol_map.resolve_source_file_path f)))]
                         | none => [])
                      let fields4 := fields3 ++
                        (match outer.line_number with
                         | some line =>
                             if line ≠ 0 then [("line", Json.num line)] else []
                         | none => [])
                      let fields5 := fields4 ++
                        (if inlines.isEmpty then []
                         else [("inlines", Json.arr
                           (inlines.map (serializeInlineFrame ctx symbol_map.symbol_map)))])
                      Except.ok (Json.obj fields5)

/-- Embeds the frame loop of `ResponseStack::serialize` (`response_json.rs`
lines 177-193): each frame is serialized with its enumeration index; a
panic (error) aborts the whole serialization. -/
def serializeStackFrames (ctx : SerCtx) (memory_map : List Lib)
    (symbols_by_module_index : List (Nat × PerModuleResults)) :
    Nat → List RequestFrame → Except String (List Json)
  | _, [] => Except.ok []
  | i, f :: fs =>
      match serializeResponseFrame ctx i f memory_map symbols_by_module_index with
      | Except.error e => Except.error e
      | Except.ok j =>
          match serializeStackFrames ctx memory_map symbols_by_module_index (i + 1) fs with
          | Except.error e => Except.error e
          | Except.ok js => Except.ok (j :: js)

/-- Embeds `ResponseStacks::serialize` (`response_json.rs` lines 154-169):
one array per request stack, in request order. -/
def serializeStacks (ctx : SerCtx) (memory_map : List Lib)
    (symbols_by_module_index : List (Nat × PerModuleResults)) :
    List RequestStack → Except String (List Json)
  | [] => Except.ok []
  | st :: sts =>
      match serializeStackFrames ctx memory_map symbols_by_module_index 0 st.frames with
      | Except.error e => Except.error e
      | Except.ok js =>
          match serializeStacks ctx memory_map symbols_by_module_index sts with
          | Except.error e => Except.error e
          | Except.ok rest => Except.ok (Json.arr js :: rest)

/-- Lookup of a library in `symbols_per_lib` (`HashMap::get`). -/
def splLookup (spl : List (Lib × Except SymError PerModuleResults)) (lib : Lib) :
    Option (Except SymError PerModuleResults) :=
  (spl.find? (fun p => p.1 = lib)).map (fun p => p.2)

/-- The `"{debug_name}/{breakpad_id}"` module key. -/
def moduleKey (lib : Lib) : String :=
  lib.debug_name ++ "/" ++ lib.breakpad_id

/-- The three tables `JobResponse::serialize` builds over the memory map. -/
structure ModuleTables where
  found_modules : List (String × Bool)
  module_errors : List (String × List SymError)
  symbols_by_module_index : List (Nat × PerModuleResults)

/-- One iteration of the memory-map loop of `JobResponse::serialize`
(`response_json.rs` lines 110-130). -/
def buildModuleTablesStep (spl : List (Lib × Except SymError PerModuleResults))
    (acc : ModuleTables) (module_index : Nat) (lib : Lib) : ModuleTables :=
  match splLookup spl lib with
  | none => acc
  | some lib_symbols_result =>
      let module_key := moduleKey lib
      match lib_symbols_result with
      | Except.ok lib_symbols =>
          { acc with
              symbols_by_module_index :=
                acc.symbols_by_module_index ++ [(module_index, lib_symbols)],
              found_modules := insertA acc.found_modules module_key true }
      | Except.error err =>
          { acc with
              module_errors := insertA acc.module_errors module_key [err],
              found_modules := insertA acc.found_modules module_key false }

/-- The memory-map loop of `JobResponse::serialize`. -/
def buildModuleTables (spl : List (Lib × Except SymError PerModuleResults)) :
    Nat → List Lib → ModuleTables → ModuleTables
  | _, [], acc => acc
  | i, lib :: rest, acc =>
      buildModuleTables spl (i + 1) rest (buildModuleTablesStep spl acc i lib)

/-- Embeds `JobResponse::serialize` (`response_json.rs` lines 105-146):
build the module tables, serialize the stacks, then emit `stacks`,
`found_modules` and — only when non-empty — `module_errors`. -/
def serializeJobResponse (ctx : SerCtx) (job : Job)
    (spl : List (Lib × Except SymError PerModuleResults)) : Except String Json :=
  let tables := buildModuleTables spl 0 job.memory_map ⟨[], [], []⟩
  match serializeStacks ctx job.memory_map tables.symbols_by_module_index job.stacks' with
  | Except.error e => Except.error e
  | Except.ok stackArrays =>
      Except.ok (Json.obj
        ([("stacks", Json.arr stackArrays),
          ("found_modules",
            Json.obj (tables.found_modules.map (fun p => (p.1, Json.bool p.2))))] ++
         (if tables.module_errors.isEmpty then []
          else [("module_errors",
            Json.obj (tables.module_errors.map (fun p =>
              (p.1, Json.arr (p.2.map (fun e => serializeError ctx e))))))])))

/-- Embeds `ResponseResults::serialize` (`response_json.rs` lines 79-93):
one job response per job, in request order. -/
def serializeJobs (ctx : SerCtx)
    (spl : List (Lib × Except SymError PerModuleResults)) :
    List Job → Except String (List Json)
  | [] => Except.ok []
  | job :: jobs =>
      match serializeJobResponse ctx job spl with
      | Except.error e => Except.error e
      | Except.ok jr =>
          match serializeJobs ctx spl jobs with
          | Except.error e => Except.error e
          | Except.ok rest => Except.ok (jr :: rest)

/-- Embeds `Response::serialize` (`response_json.rs` lines 35-67): a map
with a single `results` entry holding the per-job array. -/
def serializeResponse (ctx : SerCtx) (req : Request)
    (spl : List (Lib × Except SymError PerModuleResults)) : Except String Json :=
  match serializeJobs ctx spl req.jobs with
  | Except.error e => Except.error e
  | Except.ok results => Except.ok (Json.obj [("results", Json.arr results)])

/-- A trivial serializer context for concrete evaluations. -/
def ctx0 : SerCtx :=
  ⟨fun s => s, fun _ => "ErrorKind", fun _ => "error message"⟩

/-- A trivial symbol-map view for concrete evaluations. -/
def smView0 : SymbolMapView :=
  ⟨fun _ => "fn", fun _ => "sym", fun _ => "path"⟩

/-- A concrete library identity. -/
def lib0 : Lib := ⟨"libx", "A1B2"⟩

/-- A second concrete library identity, for the failing-module witness. -/
def lib1 : Lib := ⟨"liby", "C3D4"⟩

/-- Per-module results with no recorded addresses (an address lookup
`unwrap` on it panics). -/
def pmEmpty : PerModuleResults := ⟨[], smView0⟩

/-- Per-module results whose single address carries `inline_frames =
Some([])` (its `split_last().expect(..)` panics). -/
def pmBadInline : PerModuleResults :=
  ⟨[(0x10, some ⟨⟨0x8, none, 0⟩, none, some []⟩)], smView0⟩

/-- Per-module results with one fully symbolicated address. -/
def pmGood : PerModuleResults :=
  ⟨[(0x10, some ⟨⟨0x8, some 0x20, 3⟩, some 7,
      some [⟨some 5, some 6, some 12⟩, ⟨some 7, some 8, some 9⟩]⟩)], smView0⟩

/-- A one-job, one-stack, one-frame demo request. -/
def reqDemo : Request :=
  ⟨[⟨[lib0, lib1], [⟨[⟨0, 0x10⟩, ⟨1, 0x30⟩]⟩]⟩]⟩

/-- Demo symbol loads: `lib0` loaded with one symbolicated address, `lib1`
failed. -/
def splDemo : List (Lib × Except SymError PerModuleResults) :=
  [(lib0, Except.ok pmGood),
   (lib1, Except.error (SymError.unmatchedDebugId 3 4))]

/-- The serialized demo response (total by construction: the demo request
serializes successfully). -/
def respDemo : Json :=
  match serializeResponse ctx0 reqDemo splDemo with
  | Except.ok r => r
  | Except.error _ => Json.num 0

/-- The demo innermost-first debug-info frame list (one inlined call site,
then the outer function). -/
def framesDemo : List FrameDebugInfo :=
  [⟨some 5, some 6, some 12⟩, ⟨some 7, some 8, some 9⟩]

/-- The demo job (one loaded library, one failed library, one stack
referencing both). -/
def jobDemo : Job :=
  ⟨[lib0, lib1], [⟨[⟨0, 0x10⟩, ⟨1, 0x30⟩]⟩]⟩

/-- The serialized stack arrays of the demo job. -/
def stacksDemo : List Json :=
  match serializeStacks ctx0 jobDemo.memory_map
      (buildModuleTables splDemo 0 jobDemo.memory_map ⟨[], [], []⟩).symbols_by_module_index
      jobDemo.stacks' with
  | Except.ok s => s
  | Except.error _ => []

end Samply

namespace Samply

/-! ## Helper lemmas on lists -/

theorem eraseIdx_append_length {α : Type} (l1 l2 : List α) (x : α) (n : Nat)
    (hn : n = l1.length) : (l1 ++ x :: l2).eraseIdx n = l1 ++ l2 := by
  subst hn
  induction l1 with
  | nil => rfl
  | cons a l1 ih => simpa [List.eraseIdx] using ih

theorem insertIdx_append_length {α : Type} (l1 l2 : List α) (x : α) (n : Nat)
    (hn : n = l1.length) : (l1 ++ l2).insertIdx n x = l1 ++ x :: l2 := by
  subst hn
  induction l1 with
  | nil => rfl
  | cons a l1 ih => simpa [List.insertIdx] using ih

/-- On a list sorted strictly by `start_avma`, the elements with
`start_avma < a` form the prefix of length `countP`, and the remaining
elements all have `start_avma ≥ a`. -/
theorem take_drop_countP {T : Type} {l : List (Mapping T)} (h : SortedByStart l) (a : Nat) :
    (∀ x ∈ l.take (l.countP (fun r => r.start_avma < a)), x.start_avma < a) ∧
      (∀ y ∈ l.drop (l.countP (fun r => r.start_avma < a)), a ≤ y.start_avma) := by
  induction l with
  | nil => simp
  | cons x xs ih =>
      rw [SortedByStart, List.pairwise_cons] at h
      obtain ⟨hx, hxs⟩ := h
      by_cases hpx : x.start_avma < a
      · rw [List.countP_cons_of_pos _ _ (by simpa using hpx)]
        obtain ⟨iht, ihd⟩ := ih hxs
        refine ⟨?_, ?_⟩
        · intro z hz
          rw [List.take_succ_cons] at hz
          rcases List.mem_cons.mp hz with rfl | hz
          · exact hpx
          · exact iht z hz
        · intro y hy
          rw [List.drop_succ_cons] at hy
          exact ihd y hy
      · rw [List.countP_cons_of_neg _ _ (by simpa using hpx)]
        have hzero : xs.countP (fun r => decide (r.start_avma < a)) = 0 := by
          rw [List.countP_eq_zero]
          intro z hz
          simp only [decide_eq_true_eq]
          have := hx z hz
          omega
        rw [hzero]
        refine ⟨by simp, ?_⟩
        intro y hy
        simp only [List.drop_zero] at hy
        rcases List.mem_cons.mp hy with rfl | hy
        · omega
        · have := hx y hy
          omega

end Samply

namespace Samply

/-- On a sorted list, an entry whose `start_avma` equals the probe is found
by the binary search, and `lookup` returns it. -/
theorem lookup_eq_of_start_eq {T : Type} {l : List (Mapping T)} {e : Mapping T} {a : Nat}
    (h : SortedByStart l) (he : e ∈ l) (ha : e.start_avma = a) :
    (LibMappings.mk l).lookup a = some e := by
  classical
  set c := l.countP (fun r => r.start_avma < a) with hc
  obtain ⟨htake, hdrop⟩ := take_drop_countP h a
  have hnotin : e ∉ l.take c := by
    intro hmem
    have := htake e hmem
    omega
  have hindrop : e ∈ l.drop c := by
    have := List.take_append_drop c l
    have hmem : e ∈ l.take c ++ l.drop c := by rw [this]; exact he
    rcases List.mem_append.mp hmem with h1 | h2
    · exact absurd h1 hnotin
    · exact h2
  have hdropsorted : List.Pairwise (fun x y => x.start_avma < y.start_avma) (l.drop c) :=
    List.Pairwise.sublist (List.drop_sublist c l) h
  obtain ⟨hd, tl, hdt⟩ : ∃ hd tl, l.drop c = hd :: tl := by
    cases hdc : l.drop c with
    | nil => rw [hdc] at hindrop; exact absurd hindrop (List.not_mem_nil e)
    | cons hd tl => exact ⟨hd, tl, rfl⟩
  have hhd : hd = e := by
    rw [hdt] at hindrop
    rcases List.mem_cons.mp hindrop with h1 | h2
    · exact h1.symm
    · exfalso
      rw [hdt, List.pairwise_cons] at hdropsorted
      have hlt := hdropsorted.1 e h2
      have hge : a ≤ hd.start_avma := hdrop hd (by rw [hdt]; exact List.mem_cons_self hd tl)
      omega
  have hget : l.get? c = some e := by
    have := List.get?_drop l c 0
    rw [hdt] at this
    simpa [hhd] using this.symm
  simp only [LibMappings.lookup, binarySearchByStart, ← hc, hget, ha]
  simp only [if_pos trivial, lt_self_iff_false]
  simpa [← List.get?_eq_getElem?] using hget

end Samply

namespace Samply

/-- Case analysis of a successful `lookup`: the binary search either found
an exact `start_avma` match at the candidate index, or returned the
predecessor of the insertion index, which then contains the probe strictly
below its `end_avma`. -/
theorem lookup_cases {T : Type} {l : List (Mapping T)} {a : Nat} {r : Mapping T}
    (h : (LibMappings.mk l).lookup a = some r) :
    (l.get? (l.countP (fun x => x.start_avma < a)) = some r ∧ r.start_avma = a) ∨
      (∃ j, l.countP (fun x => x.start_avma < a) = j + 1 ∧ l.get? j = some r ∧
        a < r.end_avma) := by
  simp only [LibMappings.lookup, binarySearchByStart] at h
  split at h
  case h_1 i heq =>
      split at heq
      case h_1 x hget =>
          split at heq
          case isTrue hxa =>
              cases heq
              left
              refine ⟨h, ?_⟩
              rw [hget] at h
              cases h
              exact hxa
          case isFalse hxa => cases heq
      case h_2 hget => cases heq
  case h_2 heq =>
      cases h
  case h_3 j heq =>
      have hcount : l.countP (fun x => decide (x.start_avma < a)) = j + 1 := by
        split at heq
        case h_1 x hget =>
            split at heq
            case isTrue hxa => cases heq
            case isFalse hxa => exact Sum.inr.inj heq
        case h_2 hget => exact Sum.inr.inj heq
      right
      split at h
      case h_1 y hj =>
          split at h
          case isTrue hend =>
              cases h
              exact ⟨j, hcount, hj, hend⟩
          case isFalse hend => cases h
      case h_2 hj => cases h

/-- The well-formedness invariant implies strict sorting by `start_avma`. -/
theorem sortedByStart_of_wf {T : Type} {l : List (Mapping T)}
    (hwf : MappingsWellFormed l) : SortedByStart l := by
  refine List.Pairwise.imp_of_mem ?_ hwf.1
  intro x y hx _ hr
  exact lt_of_lt_of_le (hwf.2 x hx).1 hr

/-- Soundness of `lookup` on a well-formed table: a returned entry is a
member and contains the probe. -/
theorem lookup_some_contains {T : Type} {l : List (Mapping T)} {a : Nat} {r : Mapping T}
    (hwf : MappingsWellFormed l) (h : (LibMappings.mk l).lookup a = some r) :
    r ∈ l ∧ r.start_avma ≤ a ∧ a < r.end_avma := by
  obtain ⟨htake, hdrop⟩ := take_drop_countP (sortedByStart_of_wf hwf) a
  rcases lookup_cases h with ⟨hget, hstart⟩ | ⟨j, hc, hget, hend⟩
  · have hmem := List.get?_mem hget
    refine ⟨hmem, le_of_eq hstart, ?_⟩
    have := (hwf.2 r hmem).1
    omega
  · have hmem := List.get?_mem hget
    have hjc : j < l.countP (fun x => x.start_avma < a) := by omega
    have hintake : r ∈ l.take (l.countP (fun x => x.start_avma < a)) := by
      have := List.get?_take hjc (l := l)
      exact List.get?_mem (by rw [this]; exact hget)
    have := htake r hintake
    exact ⟨hmem, by omega, hend⟩

end Samply

namespace Samply

/-- On a well-formed table at most one entry contains a given address. -/
theorem contains_unique {T : Type} {l : List (Mapping T)} {a : Nat} {e e2 : Mapping T}
    (hwf : MappingsWellFormed l) (he : e ∈ l) (he2 : e2 ∈ l)
    (h1 : e.start_avma ≤ a) (h2 : a < e.end_avma)
    (h3 : e2.start_avma ≤ a) (h4 : a < e2.end_avma) : e = e2 := by
  obtain ⟨i, hi, hie⟩ := List.mem_iff_getElem.mp he
  obtain ⟨j, hj, hje⟩ := List.mem_iff_getElem.mp he2
  have hpw := List.pairwise_iff_getElem.mp hwf.1
  rcases lt_trichotomy i j with hij | hij | hij
  · have := hpw i j hi hj hij
    rw [hie, hje] at this
    omega
  · subst hij
    exact hie.symm.trans hje
  · have := hpw j i hj hi hij
    rw [hie, hje] at this
    omega

/-- Completeness of `lookup` on a well-formed table: an entry containing the
probe is found. -/
theorem lookup_eq_of_contains {T : Type} {l : List (Mapping T)} {a : Nat} {e : Mapping T}
    (hwf : MappingsWellFormed l) (he : e ∈ l)
    (h1 : e.start_avma ≤ a) (h2 : a < e.end_avma) :
    (LibMappings.mk l).lookup a = some e := by
  classical
  have hsorted := sortedByStart_of_wf hwf
  by_cases hsa : e.start_avma = a
  · exact lookup_eq_of_start_eq hsorted he hsa
  have hlt : e.start_avma < a := by omega
  obtain ⟨htake, hdrop⟩ := take_drop_countP hsorted a
  set c := l.countP (fun r => r.start_avma < a) with hcdef
  have hcpos : 0 < c := by
    rw [hcdef]
    rw [List.countP_pos]
    exact ⟨e, he, by simpa using hlt⟩
  have hclen : c ≤ l.length := List.countP_le_length _
  obtain ⟨j, hc⟩ : ∃ j, c = j + 1 := ⟨c - 1, by omega⟩
  have hjlen : j < l.length := by omega
  -- The entry at index `j` is `e`.
  obtain ⟨p, hp, hpe⟩ := List.mem_iff_getElem.mp he
  have hpc : p < c := by
    by_contra hge
    have hgp : l.get? p = some e := by
      rw [List.get?_eq_getElem?, List.getElem?_eq_getElem hp]
      rw [hpe]
    have hmem : e ∈ l.drop c := by
      have hq : (l.drop c).get? (p - c) = some e := by
        rw [List.get?_drop]
        have hcp : c + (p - c) = p := by omega
        rw [hcp]
        exact hgp
      exact List.get?_mem hq
    have := hdrop e hmem
    omega
  have hpj : p = j := by
    by_contra hne
    have hplt : p < j := by omega
    have hpw := List.pairwise_iff_getElem.mp hwf.1 p j hp hjlen hplt
    have hjq : l.get? j = some (l[j]) := by
      rw [List.get?_eq_getElem?, List.getElem?_eq_getElem hjlen]
    have hjtake : (l[j]) ∈ l.take c := by
      have hq : (l.take c).get? j = some (l[j]) := by
        rw [List.get?_take (by omega : j < c)]
        exact hjq
      exact List.get?_mem hq
    have hjlt : (l[j]).start_avma < a := htake _ hjtake
    rw [hpe] at hpw
    omega
  subst hpj
  have hgj : l.get? p = some e := by
    rw [List.get?_eq_getElem?, List.getElem?_eq_getElem hjlen]
    rw [hpe]
  -- The binary search returns the predecessor branch.
  have hbs : binarySearchByStart a l = Sum.inr c := by
    simp only [binarySearchByStart, ← hcdef]
    cases hgc : l.get? c with
    | none => rfl
    | some x =>
        have hxdrop : x ∈ l.drop c := by
          have := List.get?_drop l c 0
          rw [Nat.add_zero] at this
          rw [hgc] at this
          cases hdc : l.drop c with
          | nil => rw [hdc] at this; simp at this
          | cons hd tl =>
              rw [hdc] at this
              simp only [List.get?] at this
              cases this
              exact List.mem_cons_self _ _
        have := hdrop x hxdrop
        have hxa : x.start_avma ≠ a → (if x.start_avma = a then Sum.inl c else Sum.inr c) = Sum.inr c := fun hne => if_neg hne
        by_cases hxaeq : x.start_avma = a
        · -- Then `x` also contains `a`; uniqueness forces `x = e`, contradicting `e.start_avma < a`.
          exfalso
          have hxmem : x ∈ l := List.mem_of_mem_drop hxdrop
          have hxe := contains_unique hwf hxmem he (le_of_eq hxaeq)
            (by have := (hwf.2 x hxmem).1; omega) h1 h2
          rw [hxe] at hxaeq
          omega
        · exact hxa hxaeq
  simp only [LibMappings.lookup]
  rw [hbs, hc]
  have hgj2 : l[p]? = some e := by
    rw [← List.get?_eq_getElem?]
    exact hgj
  simp [hgj2, h2]

end Samply

namespace Samply

/-- **C1.** For every mapping table satisfying the invariant (sorted by
`start_avma`, pairwise non-overlapping, `start_avma < end_avma`, each mapping
smaller than 4 GiB) and every address `avma`: `convert_address avma` returns
`some (rel, v)` iff some entry `e` has `e.start_avma ≤ avma < e.end_avma`;
that entry is unique, `rel` is `e.relative_address_at_start` plus the offset
`avma - e.start_avma` computed in `u32` arithmetic, and `v` is `e`'s value;
in particular the result is `none` (e.g. below the smallest `start_avma`, or
at an `end_avma` where no entry starts) exactly when no entry contains
`avma`. -/
theorem convert_address_characterizes {T : Type} (l : List (Mapping T))
    (hwf : MappingsWellFormed l) (avma : Nat) : ConvertCharacterization l avma := by
  refine ⟨?_, fun e he e2 he2 h1 h2 h3 h4 => contains_unique hwf he he2 h1 h2 h3 h4, ?_⟩
  · intro rel v
    constructor
    · intro h
      simp only [LibMappings.convert_address] at h
      cases hl : (LibMappings.mk l).lookup avma with
      | none => rw [hl] at h; cases h
      | some range =>
          rw [hl] at h
          dsimp only at h
          obtain ⟨hmem, hc1, hc2⟩ := lookup_some_contains hwf hl
          refine ⟨range, hmem, hc1, hc2, ?_, ?_⟩
          · have hsmall : avma - range.start_avma < 2 ^ 32 := by
              have := (hwf.2 range hmem).2
              omega
            rw [Nat.mod_eq_of_lt hsmall] at h
            cases h
            rfl
          · cases h
            rfl
    · rintro ⟨e, he, h1, h2, hrel, hv⟩
      have hl := lookup_eq_of_contains hwf he h1 h2
      simp only [LibMappings.convert_address, hl]
      have hsmall : avma - e.start_avma < 2 ^ 32 := by
        have := (hwf.2 e he).2
        omega
      rw [Nat.mod_eq_of_lt hsmall, hrel, hv]
  · constructor
    · intro h e he hcon
      have hl := lookup_eq_of_contains hwf he hcon.1 hcon.2
      simp only [LibMappings.convert_address, hl] at h
      exact Option.noConfusion h
    · intro hall
      simp only [LibMappings.convert_address]
      cases hl : (LibMappings.mk l).lookup avma with
      | none => rfl
      | some r =>
          obtain ⟨hmem, hc1, hc2⟩ := lookup_some_contains hwf hl
          exact absurd ⟨hc1, hc2⟩ (hall r hmem)

end Samply

namespace Samply

/-- Inversion for an `Ok` result of the binary search. -/
theorem binarySearch_inl_inv {T : Type} {a : Nat} {l : List (Mapping T)} {i : Nat}
    (hbs : binarySearchByStart a l = Sum.inl i) :
    i = l.countP (fun r => r.start_avma < a) ∧
      ∃ x, l.get? i = some x ∧ x.start_avma = a := by
  simp only [binarySearchByStart] at hbs
  split at hbs
  case h_1 x hget =>
      split at hbs
      case isTrue hxa =>
          cases hbs
          exact ⟨rfl, x, hget, hxa⟩
      case isFalse hxa => cases hbs
  case h_2 hget => cases hbs

/-- Inversion for an `Err` result of the binary search. -/
theorem binarySearch_inr_inv {T : Type} {a : Nat} {l : List (Mapping T)} {i : Nat}
    (hbs : binarySearchByStart a l = Sum.inr i) :
    i = l.countP (fun r => r.start_avma < a) ∧
      ∀ x, l.get? i = some x → x.start_avma ≠ a := by
  simp only [binarySearchByStart] at hbs
  split at hbs
  case h_1 x hget =>
      split at hbs
      case isTrue hxa => cases hbs
      case isFalse hxa =>
          cases hbs
          exact ⟨rfl, fun y hy => by rw [hget] at hy; cases hy; exact hxa⟩
  case h_2 hget =>
      cases hbs
      exact ⟨rfl, fun y hy => by rw [hget] at hy; cases hy⟩

/-- `add_mapping` keeps the entries sorted strictly by `start_avma` and the
new entry is present afterwards. -/
theorem add_mapping_sorted {T : Type} {l : List (Mapping T)} (h : SortedByStart l)
    (s eA r : Nat) (v : T) :
    SortedByStart ((LibMappings.mk l).add_mapping s eA r v).sorted_lib_ranges ∧
      (Mapping.mk s eA r v) ∈ ((LibMappings.mk l).add_mapping s eA r v).sorted_lib_ranges := by
  classical
  obtain ⟨htake, hdrop⟩ := take_drop_countP h s
  set c := l.countP (fun x => x.start_avma < s) with hcdef
  have hclen : c ≤ l.length := List.countP_le_length _
  have hlentake : (l.take c).length = c := by
    simp only [List.length_take]
    omega
  have htakesorted : SortedByStart (l.take c) :=
    List.Pairwise.sublist (List.take_sublist c l) h
  have hdropsorted : List.Pairwise (fun x y => x.start_avma < y.start_avma) (l.drop c) :=
    List.Pairwise.sublist (List.drop_sublist c l) h
  simp only [LibMappings.add_mapping]
  cases hbs : binarySearchByStart s l with
  | inl i =>
      obtain ⟨hic, x, hget, hxs⟩ := binarySearch_inl_inv hbs
      rw [← hcdef] at hic
      subst hic
      obtain ⟨tl, hdc⟩ : ∃ tl, l.drop c = x :: tl := by
        have := List.get?_drop l c 0
        rw [Nat.add_zero, hget] at this
        cases hdc : l.drop c with
        | nil => rw [hdc] at this; cases this
        | cons hd tl =>
            rw [hdc] at this
            simp only [List.get?] at this
            cases this
            exact ⟨tl, rfl⟩
      have hldecomp : l = l.take c ++ x :: tl := by
        rw [← hdc]
        exact (List.take_append_drop c l).symm
      have herase : l.eraseIdx c = l.take c ++ tl := by
        conv_lhs => rw [hldecomp]
        exact eraseIdx_append_length _ _ _ _ hlentake.symm
      have hinsert : (l.eraseIdx c).insertIdx c (Mapping.mk s eA r v) =
          l.take c ++ (Mapping.mk s eA r v) :: tl := by
        rw [herase]
        exact insertIdx_append_length _ _ _ _ hlentake.symm
      dsimp only
      rw [hinsert]
      have hxtl : ∀ y ∈ tl, s < y.start_avma := by
        intro y hy
        have : x.start_avma < y.start_avma := by
          rw [hdc] at hdropsorted
          exact (List.pairwise_cons.mp hdropsorted).1 y hy
        omega
      constructor
      · rw [SortedByStart, List.pairwise_append]
        refine ⟨htakesorted, ?_, ?_⟩
        · rw [List.pairwise_cons]
          exact ⟨hxtl, List.Pairwise.sublist (List.sublist_cons_self x tl)
            (hdc ▸ hdropsorted)⟩
        · intro p hp q hq
          have hps : p.start_avma < s := htake p hp
          rcases List.mem_cons.mp hq with rfl | hq
          · exact hps
          · have := hxtl q hq
            omega
      · exact List.mem_append_right _ (List.mem_cons_self _ _)
  | inr i =>
      obtain ⟨hic, hnox⟩ := binarySearch_inr_inv hbs
      rw [← hcdef] at hic
      subst hic
      have hinsert : l.insertIdx c (Mapping.mk s eA r v) =
          l.take c ++ (Mapping.mk s eA r v) :: l.drop c := by
        conv_lhs => rw [← List.take_append_drop c l]
        exact insertIdx_append_length _ _ _ _ hlentake.symm
      dsimp only
      rw [hinsert]
      have hdropgt : ∀ y ∈ l.drop c, s < y.start_avma := by
        intro y hy
        cases hdc : l.drop c with
        | nil => rw [hdc] at hy; cases hy
        | cons hd tl =>
            have hhd : l.get? c = some hd := by
              have := List.get?_drop l c 0
              rw [Nat.add_zero, hdc] at this
              simpa using this.symm
            have hhdne : hd.start_avma ≠ s := hnox hd hhd
            have hhdge : s ≤ hd.start_avma :=
              hdrop hd (by rw [hdc]; exact List.mem_cons_self _ _)
            rw [hdc] at hy
            rcases List.mem_cons.mp hy with rfl | hy
            · omega
            · have : hd.start_avma < y.start_avma := by
                rw [hdc] at hdropsorted
                exact (List.pairwise_cons.mp hdropsorted).1 y hy
              omega
      constructor
      · rw [SortedByStart, List.pairwise_append]
        refine ⟨htakesorted, ?_, ?_⟩
        · rw [List.pairwise_cons]
          exact ⟨hdropgt, hdropsorted⟩
        · intro p hp q hq
          have hps : p.start_avma < s := htake p hp
          rcases List.mem_cons.mp hq with rfl | hq
          · exact hps
          · have := hdropgt q hq
            omega
      · exact List.mem_append_right _ (List.mem_cons_self _ _)

end Samply

namespace Samply

/-- Witness for C1 at a concrete two-entry table and address `0x1500`. -/
theorem convert_address_characterizes_witness :
    MappingsWellFormed demoRanges ∧ ConvertCharacterization demoRanges 0x1500 := by
  have hwf : MappingsWellFormed demoRanges := by
    unfold MappingsWellFormed demoRanges
    decide
  exact ⟨hwf, convert_address_characterizes demoRanges hwf 0x1500⟩

/-- **C2.** Adding a mapping `(s, e, r, v)` (with `s < e`, `r` a `u32`) to any
table whose entries are sorted by `start_avma` — the invariant every
`LibMappings` value reachable through the API satisfies — and then converting
address `s` yields `some (r, v)`, also when an entry with `start_avma = s`
already existed (the old entry is removed first: last write wins). -/
theorem add_then_convert_start {T : Type} (m : LibMappings T)
    (h : SortedByStart m.sorted_lib_ranges) (s eA r : Nat) (v : T)
    (hse : s < eA) (hr : r < 2 ^ 32) :
    (m.add_mapping s eA r v).convert_address s = some (r, v) := by
  obtain ⟨l⟩ := m
  obtain ⟨hsorted2, hmem⟩ := add_mapping_sorted h s eA r v
  have hres : (LibMappings.mk l).add_mapping s eA r v =
      LibMappings.mk (((LibMappings.mk l).add_mapping s eA r v).sorted_lib_ranges) := rfl
  have hlk : (LibMappings.mk (((LibMappings.mk l).add_mapping s eA r v).sorted_lib_ranges)).lookup s =
      some (Mapping.mk s eA r v) :=
    lookup_eq_of_start_eq hsorted2 hmem rfl
  rw [hres]
  simp only [LibMappings.convert_address, hlk]
  simp only [Nat.sub_self, Nat.zero_mod, Nat.add_zero]
  rw [Nat.mod_eq_of_lt hr]

/-- Witness for C2: re-adding at existing start `0x1000` with a new range and
value, then converting `0x1000`, yields the new pair. -/
theorem add_then_convert_start_witness :
    SortedByStart demoTable.sorted_lib_ranges ∧ 0x1000 < 0x3000 ∧ 0x20 < 2 ^ 32 ∧
      (demoTable.add_mapping 0x1000 0x3000 0x20 7).convert_address 0x1000 = some (0x20, 7) := by
  have hs : SortedByStart demoTable.sorted_lib_ranges := by
    unfold SortedByStart demoTable
    decide
  exact ⟨hs, by decide, by decide,
    add_then_convert_start demoTable hs 0x1000 0x3000 0x20 7 (by decide) (by decide)⟩

/-- **C3 (amended).** Any sequence of `add_mapping`/`remove_mapping` calls
starting from the empty table (each `add` with `start_avma < end_avma`)
leaves the entry vector sorted strictly by `start_avma`.  (Pairwise
non-overlap, as claimed, is refuted by `runOps_overlap_counterexample`:
`add_mapping` does not check for range overlap against other entries.) -/
theorem runOps_sorted {T : Type} (ops : List (MapOp T)) (hadds : AddsWellFormed ops) :
    SortedByStart (runOps ops).sorted_lib_ranges := by
  have hgen : ∀ (m : LibMappings T), SortedByStart m.sorted_lib_ranges →
      SortedByStart (ops.foldl applyOp m).sorted_lib_ranges := by
    induction ops with
    | nil =>
        intro m hm
        simpa using hm
    | cons op rest ih =>
        intro m hm
        rw [List.foldl_cons]
        refine ih (fun o ho => hadds o (List.mem_cons_of_mem _ ho)) _ ?_
        cases op with
        | add s e r v =>
            obtain ⟨l⟩ := m
            simpa [applyOp] using (add_mapping_sorted hm s e r v).1
        | remove s =>
            simpa [applyOp, LibMappings.remove_mapping] using
              List.Pairwise.sublist (List.filter_sublist _) hm
  exact hgen (LibMappings.new T) (by simp [LibMappings.new, SortedByStart])

/-- Counterexample to C3 as stated: two well-formed adds produce entries
`[0x1000, 0x2000)` and `[0x1500, 0x1600)`, which overlap. -/
theorem runOps_overlap_counterexample :
    AddsWellFormed overlapOps ∧
      ¬ SortedNonOverlapping (runOps overlapOps).sorted_lib_ranges := by
  unfold AddsWellFormed SortedNonOverlapping
  decide

/-- Witness for the amended C3 at a concrete operation sequence. -/
theorem runOps_sorted_witness :
    AddsWellFormed overlapOps ∧ SortedByStart (runOps overlapOps).sorted_lib_ranges := by
  have ha : AddsWellFormed overlapOps := by
    unfold AddsWellFormed
    decide
  exact ⟨ha, runOps_sorted overlapOps ha⟩

end Samply

namespace Samply

/-- Bit-or with 1 on an even number is a plain increment. -/
theorem two_mul_lor_one (i : Nat) : (2 * i) ||| 1 = 2 * i + 1 := by
  have := Nat.lor_bit false i true 0
  simpa [Nat.bit] using this

/-- Counterexample to C5 as stated: at concrete out-of-range and
delimiter-free inputs the byte-slice reads fail, but with the kinds
`UnexpectedEof` and `InvalidInput` — not `InvalidInput` and `NotFound` as
claimed. -/
theorem read_bytes_error_kinds_counterexample :
    errKind (read_bytes_at [0] 0 2) ≠ some IOErrorKind.invalidInput ∧
      errKind (read_bytes_at_until [0] 0 1 5) ≠ some IOErrorKind.notFound := by
  decide

/-- **C5 (amended).** For the byte-slice `FileContents` implementation:
a read with `offset + size` beyond the file length fails with an I/O error
of kind `UnexpectedEof` (not `InvalidInput`), and
`read_bytes_at_until` over an in-bounds range in which the delimiter does
not occur fails with an I/O error of kind `InvalidInput` (not `NotFound`). -/
theorem read_bytes_error_kinds (data : List Nat) (offset size startIdx endIdx delim : Nat)
    (hoor : data.length < offset + size)
    (hrange : startIdx ≤ endIdx) (hinb : endIdx ≤ data.length)
    (hnod : ∀ b ∈ (data.drop startIdx).take (endIdx - startIdx), b ≠ delim) :
    read_bytes_at data offset size = Except.error (FileError.io IOErrorKind.unexpectedEof
        "FileContents::read_bytes_at for &[u8] was called with out-of-range indexes") ∧
      read_bytes_at_until data startIdx endIdx delim =
        Except.error (FileError.io IOErrorKind.invalidInput "Delimiter not found") := by
  constructor
  · unfold read_bytes_at
    rw [if_neg (by omega)]
  · unfold read_bytes_at_until
    rw [if_neg (by omega)]
    have hok : read_bytes_at data startIdx (endIdx - startIdx) =
        Except.ok ((data.drop startIdx).take (endIdx - startIdx)) := by
      unfold read_bytes_at
      rw [if_pos (by omega)]
    rw [hok]
    dsimp only
    have hnone : ((data.drop startIdx).take (endIdx - startIdx)).findIdx?
        (fun b => b = delim) = none := by
      rw [List.findIdx?_eq_none_iff]
      intro x hx
      simpa using hnod x hx
    rw [hnone]

/-- Witness for the amended C5 at concrete inputs. -/
theorem read_bytes_error_kinds_witness :
    ([1, 2, 3] : List Nat).length < 2 + 5 ∧ 0 ≤ 3 ∧
      3 ≤ ([1, 2, 3] : List Nat).length ∧
      (∀ b ∈ (([1, 2, 3] : List Nat).drop 0).take 3, b ≠ 9) ∧
      read_bytes_at [1, 2, 3] 2 5 = Except.error (FileError.io IOErrorKind.unexpectedEof
        "FileContents::read_bytes_at for &[u8] was called with out-of-range indexes") ∧
      read_bytes_at_until [1, 2, 3] 0 3 9 =
        Except.error (FileError.io IOErrorKind.invalidInput "Delimiter not found") := by
  have hthm := read_bytes_error_kinds [1, 2, 3] 2 5 0 3 9 (by decide) (by decide)
    (by decide) (by decide)
  exact ⟨by decide, by decide, by decide, by decide, hthm.1, hthm.2⟩

end Samply

namespace Samply

/-- **C9.** Generation safety of the string interner: resolving a handle
whose generation differs from the interner's fails the generation assertion
(modelled as `Except.error`), so no string is ever returned for a foreign
handle; and a handle produced by `intern` / `intern_owned` on a coherent
interner resolves (same generation, in-range index) to exactly the interned
string. -/
theorem resolve_generation_safety :
    (∀ (it : SymbolMapStringInterner) (h : SymbolMapStringHandle),
        h.generation ≠ it.symbol_map_generation →
        it.resolve h =
          Except.error "Attempting to resolve handle from different symbol map") ∧
      (∀ (it : SymbolMapStringInterner) (s : String) (it2 : SymbolMapStringInterner)
          (hdl : SymbolMapStringHandle), InternerWf it → it.intern s = (it2, hdl) →
          it2.resolve hdl = Except.ok (some s)) ∧
      (∀ (it : SymbolMapStringInterner) (s : String) (it2 : SymbolMapStringInterner)
          (hdl : SymbolMapStringHandle), InternerWf it → it.intern_owned s = (it2, hdl) →
          it2.resolve hdl = Except.ok (some s)) := by
  refine ⟨?_, ?_, ?_⟩
  · intro it h hne
    unfold SymbolMapStringInterner.resolve
    rw [if_neg hne]
  · intro it s it2 hdl hwf hint
    obtain ⟨hb, ho, hblen, holen⟩ := hwf
    unfold SymbolMapStringInterner.intern at hint
    rcases hii : it.intern_inner s with ⟨itm, idx⟩
    rw [hii] at hint
    cases hint
    unfold SymbolMapStringInterner.intern_inner at hii
    split at hii
    case h_1 i hlook =>
        cases hii
        obtain ⟨hilt, -⟩ := List.get?_eq_some.mp (hb s i hlook)
        have hish : (i <<< 1) % 2 ^ 32 = 2 * i := by
          rw [Nat.shiftLeft_eq]
          have h2 : i * 2 ^ 1 = 2 * i := by ring
          rw [h2]
          exact Nat.mod_eq_of_lt (by omega)
        unfold SymbolMapStringInterner.resolve SymbolMapStringInterner.handle
        rw [if_pos rfl, hish]
        have hpar : 2 * i % 2 = 0 := by omega
        have hdiv : 2 * i / 2 = i := by omega
        rw [hpar, if_pos rfl, hdiv]
        exact congrArg Except.ok (hb s i hlook)
    case h_2 hlook =>
        split at hii
        case h_1 i hlook2 =>
            cases hii
            obtain ⟨hilt, -⟩ := List.get?_eq_some.mp (ho s i hlook2)
            have hish : (i <<< 1) % 2 ^ 32 = 2 * i := by
              rw [Nat.shiftLeft_eq]
              have h2 : i * 2 ^ 1 = 2 * i := by ring
              rw [h2]
              exact Nat.mod_eq_of_lt (by omega)
            unfold SymbolMapStringInterner.resolve SymbolMapStringInterner.handle
            rw [if_pos rfl, hish, two_mul_lor_one]
            have hpar : (2 * i + 1) % 2 = 1 := by omega
            have hdiv : (2 * i + 1) / 2 = i := by omega
            rw [hpar, hdiv]
            simp only [if_neg (by omega : ¬(1 : Nat) = 0)]
            exact congrArg Except.ok (ho s i hlook2)
        case h_2 hlook2 =>
            cases hii
            have hlen : it.borrowed_strings.length % 2 ^ 32 =
                it.borrowed_strings.length := Nat.mod_eq_of_lt (by omega)
            have hish : ((it.borrowed_strings.length % 2 ^ 32) <<< 1) % 2 ^ 32 =
                2 * it.borrowed_strings.length := by
              rw [hlen, Nat.shiftLeft_eq]
              have h2 : it.borrowed_strings.length * 2 ^ 1 =
                  2 * it.borrowed_strings.length := by ring
              rw [h2]
              exact Nat.mod_eq_of_lt (by omega)
            unfold SymbolMapStringInterner.resolve SymbolMapStringInterner.handle
            dsimp only
            rw [if_pos rfl, hish]
            have hpar : 2 * it.borrowed_strings.length % 2 = 0 := by omega
            have hdiv : 2 * it.borrowed_strings.length / 2 =
                it.borrowed_strings.length := by omega
            rw [hpar, if_pos rfl, hdiv]
            exact congrArg Except.ok (List.get?_concat_length _ _)
  · intro it s it2 hdl hwf hint
    obtain ⟨hb, ho, hblen, holen⟩ := hwf
    unfold SymbolMapStringInterner.intern_owned at hint
    rcases hii : it.intern_owned_inner s with ⟨itm, idx⟩
    rw [hii] at hint
    cases hint
    unfold SymbolMapStringInterner.intern_owned_inner at hii
    split at hii
    case h_1 i hlook =>
        cases hii
        obtain ⟨hilt, -⟩ := List.get?_eq_some.mp (hb s i hlook)
        have hish : (i <<< 1) % 2 ^ 32 = 2 * i := by
          rw [Nat.shiftLeft_eq]
          have h2 : i * 2 ^ 1 = 2 * i := by ring
          rw [h2]
          exact Nat.mod_eq_of_lt (by omega)
        unfold SymbolMapStringInterner.resolve SymbolMapStringInterner.handle
        rw [if_pos rfl, hish]
        have hpar : 2 * i % 2 = 0 := by omega
        have hdiv : 2 * i / 2 = i := by omega
        rw [hpar, if_pos rfl, hdiv]
        exact congrArg Except.ok (hb s i hlook)
    case h_2 hlook =>
        split at hii
        case h_1 i hlook2 =>
            cases hii
            obtain ⟨hilt, -⟩ := List.get?_eq_some.mp (ho s i hlook2)
            have hish : (i <<< 1) % 2 ^ 32 = 2 * i := by
              rw [Nat.shiftLeft_eq]
              have h2 : i * 2 ^ 1 = 2 * i := by ring
              rw [h2]
              exact Nat.mod_eq_of_lt (by omega)
            unfold SymbolMapStringInterner.resolve SymbolMapStringInterner.handle
            rw [if_pos rfl, hish, two_mul_lor_one]
            have hpar : (2 * i + 1) % 2 = 1 := by omega
            have hdiv : (2 * i + 1) / 2 = i := by omega
            rw [hpar, hdiv]
            simp only [if_neg (by omega : ¬(1 : Nat) = 0)]
            exact congrArg Except.ok (ho s i hlook2)
        case h_2 hlook2 =>
            cases hii
            have hlen : it.owned_strings.length % 2 ^ 32 =
                it.owned_strings.length := Nat.mod_eq_of_lt (by omega)
            have hish : ((it.owned_strings.length % 2 ^ 32) <<< 1) % 2 ^ 32 =
                2 * it.owned_strings.length := by
              rw [hlen, Nat.shiftLeft_eq]
              have h2 : it.owned_strings.length * 2 ^ 1 =
                  2 * it.owned_strings.length := by ring
              rw [h2]
              exact Nat.mod_eq_of_lt (by omega)
            unfold SymbolMapStringInterner.resolve SymbolMapStringInterner.handle
            dsimp only
            rw [if_pos rfl, hish, two_mul_lor_one]
            have hpar : (2 * it.owned_strings.length + 1) % 2 = 1 := by omega
            have hdiv : (2 * it.owned_strings.length + 1) / 2 =
                it.owned_strings.length := by omega
            rw [hpar, hdiv]
            simp only [if_neg (by omega : ¬(1 : Nat) = 0)]
            exact congrArg Except.ok (List.get?_concat_length _ _)

/-- Witness for C9: a foreign-generation handle is refused by a fresh
interner, and freshly interned strings resolve back. -/
theorem resolve_generation_safety_witness :
    (2 : Nat) ≠ 1 ∧ InternerWf (SymbolMapStringInterner.newInterner 1) ∧
      (SymbolMapStringInterner.newInterner 1).resolve ⟨2, 0⟩ =
        Except.error "Attempting to resolve handle from different symbol map" ∧
      (SymbolMapStringInterner.newInterner 1).intern "foo" = (internDemo, ⟨1, 0⟩) ∧
      internDemo.resolve ⟨1, 0⟩ = Except.ok (some "foo") ∧
      (SymbolMapStringInterner.newInterner 1).intern_owned "bar" = (ownedDemo, ⟨1, 1⟩) ∧
      ownedDemo.resolve ⟨1, 1⟩ = Except.ok (some "bar") := by
  have hwf : InternerWf (SymbolMapStringInterner.newInterner 1) := by
    refine ⟨?_, ?_, by decide, by decide⟩
    · intro s i h
      simp [SymbolMapStringInterner.newInterner, List.lookup] at h
    · intro s i h
      simp [SymbolMapStringInterner.newInterner, List.lookup] at h
  have hi : (SymbolMapStringInterner.newInterner 1).intern "foo" = (internDemo, ⟨1, 0⟩) :=
    rfl
  have hio : (SymbolMapStringInterner.newInterner 1).intern_owned "bar" =
      (ownedDemo, ⟨1, 1⟩) := rfl
  exact ⟨by decide, hwf, resolve_generation_safety.1 _ ⟨2, 0⟩ (by decide), hi,
    resolve_generation_safety.2.1 _ "foo" _ _ hwf hi, hio,
    resolve_generation_safety.2.2 _ "bar" _ _ hwf hio⟩

end Samply


namespace Samply

/-- The candidate loop computes the claim-C4 description, for any recorded
error so far standing for the error observed before this suffix. -/
theorem loadSymbolMapLoop_spec {α : Type} (debug_name : String) (debug_id : Nat)
    (load : α → Except SymError SymbolMapModel) (cs : List α) :
    ∀ last_err, loadSymbolMapLoop debug_name debug_id load cs last_err =
      match cs.find? (goodCandidate debug_id load) with
      | some c =>
          match load c with
          | Except.ok m => Except.ok m
          | Except.error e => Except.error e
      | none =>
          match cs.getLast? with
          | none =>
              Except.error (last_err.getD
                (SymError.noCandidatePathForBinary (some debug_name) (some debug_id)))
          | some c => Except.error (observedError debug_id load c) := by
  induction cs with
  | nil =>
      intro last_err
      rfl
  | cons c rest ih =>
      intro last_err
      by_cases hgood : goodCandidate debug_id load c = true
      · rw [List.find?_cons_of_pos _ hgood]
        unfold goodCandidate at hgood
        unfold loadSymbolMapLoop
        cases hl : load c with
        | ok m =>
            rw [hl] at hgood
            have hmid : m.debug_id = debug_id := by simpa using hgood
            dsimp only
            rw [if_pos hmid, hl]
        | error e =>
            rw [hl] at hgood
            cases hgood
      · rw [List.find?_cons_of_neg _ hgood]
        unfold goodCandidate at hgood
        unfold loadSymbolMapLoop
        cases hl : load c with
        | ok m =>
            rw [hl] at hgood
            have hne : ¬ m.debug_id = debug_id := by simpa using hgood
            dsimp only
            rw [if_neg hne, ih (some (SymError.unmatchedDebugId m.debug_id debug_id))]
            cases rest with
            | nil =>
                simp only [List.find?_nil, List.getLast?_singleton, Option.getD_some]
                unfold observedError
                simp [hl]
            | cons c2 rest2 =>
                cases hgl2 : (c2 :: rest2).getLast? with
                | none => simp at hgl2
                | some x => rw [List.getLast?_cons_cons, hgl2]
        | error e =>
            dsimp only
            rw [ih (some e)]
            cases rest with
            | nil =>
                simp only [List.find?_nil, List.getLast?_singleton, Option.getD_some]
                unfold observedError
                simp [hl]
            | cons c2 rest2 =>
                cases hgl2 : (c2 :: rest2).getLast? with
                | none => simp at hgl2
                | some x => rw [List.getLast?_cons_cons, hgl2]

/-- **C4.** `load_symbol_map` tries the helper's candidates in order and
returns the first successfully parsed symbol map whose `debug_id` matches;
a successful parse with a different id records
`UnmatchedDebugId(found, requested)` and continues; an exhausted list yields
the last observed error (in particular `UnmatchedDebugId` with the pair
observed for the last candidate when every candidate is id-mismatched); an
empty candidate list yields `NoCandidatePathForBinary`.  Stated as an
equation with the claim-side description `loadSymbolMapSpec`. -/
theorem load_symbol_map_characterizes {α : Type} (debug_name : String) (debug_id : Nat)
    (cands : List α) (load : α → Except SymError SymbolMapModel) :
    load_symbol_map debug_name debug_id (Except.ok cands) load =
      loadSymbolMapSpec debug_name debug_id load cands := by
  unfold load_symbol_map loadSymbolMapSpec
  dsimp only
  rw [loadSymbolMapLoop_spec]
  simp only [Option.getD_none]

end Samply

namespace Samply

/-- **C10.** The three unchecked preconditions of `ResponseFrame::serialize`
panic (modelled as `Except.error`) instead of producing an error value or an
omitted field: an out-of-range `module_index`, an address missing from the
recorded `AddressResults` of a present symbol map, and an
`inline_frames` list that is `Some` but empty. -/
theorem frame_serialize_panics (ctx : SerCtx) (index : Nat) (frame : RequestFrame)
    (memory_map : List Lib) (sy : List (Nat × PerModuleResults)) :
    (memory_map.get? frame.module_index = none →
      serializeResponseFrame ctx index frame memory_map sy = Except.error
        "index out of bounds: the len is the memory map length but the index is the frame module index") ∧
    (∀ lib pm, memory_map.get? frame.module_index = some lib →
      aLookup sy frame.module_index = some pm →
      aLookup pm.address_results frame.address = none →
      serializeResponseFrame ctx index frame memory_map sy =
        Except.error "called Option::unwrap on a None value") ∧
    (∀ lib pm ar, memory_map.get? frame.module_index = some lib →
      aLookup sy frame.module_index = some pm →
      aLookup pm.address_results frame.address = some (some ar) →
      ar.inline_frames = some [] →
      serializeResponseFrame ctx index frame memory_map sy =
        Except.error "inline_frames should always have at least one element") := by
  refine ⟨?_, ?_, ?_⟩
  · intro h
    unfold serializeResponseFrame
    rw [h]
  · intro lib pm h1 h2 h3
    unfold serializeResponseFrame
    rw [h1]
    dsimp only
    rw [h2]
    dsimp only
    rw [h3]
  · intro lib pm ar h1 h2 h3 h4
    unfold serializeResponseFrame
    rw [h1]
    dsimp only
    rw [h2]
    dsimp only
    rw [h3]
    dsimp only
    rw [h4]
    rfl

/-- Witness for C10: each of the three panics at a concrete frame. -/
theorem frame_serialize_panics_witness :
    ([] : List Lib).get? 0 = none ∧
      serializeResponseFrame ctx0 0 ⟨0, 0x10⟩ [] [] = Except.error
        "index out of bounds: the len is the memory map length but the index is the frame module index" ∧
      [lib0].get? 0 = some lib0 ∧ aLookup [(0, pmEmpty)] 0 = some pmEmpty ∧
      aLookup pmEmpty.address_results 0x10 = none ∧
      serializeResponseFrame ctx0 0 ⟨0, 0x10⟩ [lib0] [(0, pmEmpty)] =
        Except.error "called Option::unwrap on a None value" ∧
      aLookup [(0, pmBadInline)] 0 = some pmBadInline ∧
      aLookup pmBadInline.address_results 0x10 =
        some (some ⟨⟨0x8, none, 0⟩, none, some []⟩) ∧
      serializeResponseFrame ctx0 0 ⟨0, 0x10⟩ [lib0] [(0, pmBadInline)] =
        Except.error "inline_frames should always have at least one element" := by
  refine ⟨rfl, (frame_serialize_panics ctx0 0 ⟨0, 0x10⟩ [] []).1 rfl, rfl, rfl, rfl,
    (frame_serialize_panics ctx0 0 ⟨0, 0x10⟩ [lib0] [(0, pmEmpty)]).2.1 lib0 pmEmpty
      rfl rfl rfl, rfl, rfl,
    (frame_serialize_panics ctx0 0 ⟨0, 0x10⟩ [lib0] [(0, pmBadInline)]).2.2 lib0 pmBadInline
      ⟨⟨0x8, none, 0⟩, none, some []⟩ rfl rfl rfl rfl⟩

end Samply

namespace Samply

/-- A successfully serialized frame always opens with its `frame` index,
`module_offset` and `module` fields (claim C6's per-frame shape). -/
theorem serializeResponseFrame_ok_fields {ctx : SerCtx} {i : Nat} {f : RequestFrame}
    {mm : List Lib} {sy : List (Nat × PerModuleResults)} {fj : Json}
    (h : serializeResponseFrame ctx i f mm sy = Except.ok fj) :
    jGet fj "frame" = some (Json.num i) ∧
      jGet fj "module_offset" = some (Json.str (serializeAsHexStr f.address)) ∧
      ∃ lib, mm.get? f.module_index = some lib ∧
        jGet fj "module" = some (Json.str lib.debug_name) := by
  simp only [serializeResponseFrame] at h
  split at h
  case h_1 hmm => cases h
  case h_2 lib hmm =>
      split at h
      case h_1 hsy =>
          cases h
          refine ⟨?_, ?_, lib, hmm, ?_⟩ <;> simp [jGet]
      case h_2 pm hsy =>
          split at h
          case h_1 har => cases h
          case h_2 har =>
              cases h
              refine ⟨?_, ?_, lib, hmm, ?_⟩ <;> simp [jGet]
          case h_3 ar har =>
              split at h
              case h_1 hif =>
                  cases h
                  refine ⟨?_, ?_, lib, hmm, ?_⟩ <;> simp [jGet]
              case h_2 frames hif =>
                  split at h
                  case h_1 hlast => cases h
                  case h_2 outer hlast =>
                      cases h
                      refine ⟨?_, ?_, lib, hmm, ?_⟩ <;> simp [jGet]

/-- The frame loop preserves count and order, each output frame carrying
its enumeration index. -/
theorem serializeStackFrames_ok {ctx : SerCtx} {mm : List Lib}
    {sy : List (Nat × PerModuleResults)} :
    ∀ (fs : List RequestFrame) (i : Nat) (js : List Json),
      serializeStackFrames ctx mm sy i fs = Except.ok js →
      js.length = fs.length ∧
        ∀ k fj, js.get? k = some fj → ∃ f, fs.get? k = some f ∧
          serializeResponseFrame ctx (i + k) f mm sy = Except.ok fj := by
  intro fs
  induction fs with
  | nil =>
      intro i js h
      cases h
      exact ⟨rfl, fun k fj hk => by cases hk⟩
  | cons f fs ih =>
      intro i js h
      unfold serializeStackFrames at h
      split at h
      case h_1 e hf => cases h
      case h_2 j hf =>
          split at h
          case h_1 e hrest => cases h
          case h_2 js2 hrest =>
              cases h
              obtain ⟨hlen, helem⟩ := ih (i + 1) js2 hrest
              refine ⟨by simp [hlen], ?_⟩
              intro k fj hk
              cases k with
              | zero =>
                  cases hk
                  exact ⟨f, rfl, by simpa using hf⟩
              | succ k2 =>
                  obtain ⟨f2, hf2, hser⟩ := helem k2 fj (by simpa using hk)
                  refine ⟨f2, by simpa using hf2, ?_⟩
                  have : i + (k2 + 1) = i + 1 + k2 := by omega
                  rw [this]
                  exact hser

/-- The stack loop preserves count and order. -/
theorem serializeStacks_ok {ctx : SerCtx} {mm : List Lib}
    {sy : List (Nat × PerModuleResults)} :
    ∀ (sts : List RequestStack) (js : List Json),
      serializeStacks ctx mm sy sts = Except.ok js →
      js.length = sts.length ∧
        ∀ j sj, js.get? j = some sj → ∃ st, sts.get? j = some st ∧
          ∃ frameJs, sj = Json.arr frameJs ∧
            serializeStackFrames ctx mm sy 0 st.frames = Except.ok frameJs := by
  intro sts
  induction sts with
  | nil =>
      intro js h
      cases h
      exact ⟨rfl, fun j sj hj => by cases hj⟩
  | cons st sts ih =>
      intro js h
      unfold serializeStacks at h
      split at h
      case h_1 e hst => cases h
      case h_2 frameJs hst =>
          split at h
          case h_1 e hrest => cases h
          case h_2 js2 hrest =>
              cases h
              obtain ⟨hlen, helem⟩ := ih js2 hrest
              refine ⟨by simp [hlen], ?_⟩
              intro j sj hj
              cases j with
              | zero =>
                  cases hj
                  exact ⟨st, rfl, frameJs, rfl, hst⟩
              | succ j2 =>
                  obtain ⟨st2, hst2, fj2, hfj2, hser⟩ := helem j2 sj (by simpa using hj)
                  exact ⟨st2, by simpa using hst2, fj2, hfj2, hser⟩

/-- The job loop preserves count and order. -/
theorem serializeJobs_ok {ctx : SerCtx}
    {spl : List (Lib × Except SymError PerModuleResults)} :
    ∀ (jobs : List Job) (js : List Json),
      serializeJobs ctx spl jobs = Except.ok js →
      js.length = jobs.length ∧
        ∀ i jr, js.get? i = some jr → ∃ job, jobs.get? i = some job ∧
          serializeJobResponse ctx job spl = Except.ok jr := by
  intro jobs
  induction jobs with
  | nil =>
      intro js h
      cases h
      exact ⟨rfl, fun i jr hi => by cases hi⟩
  | cons job jobs ih =>
      intro js h
      unfold serializeJobs at h
      split at h
      case h_1 e hjob => cases h
      case h_2 jr0 hjob =>
          split at h
          case h_1 e hrest => cases h
          case h_2 js2 hrest =>
              cases h
              obtain ⟨hlen, helem⟩ := ih js2 hrest
              refine ⟨by simp [hlen], ?_⟩
              intro i jr hi
              cases i with
              | zero =>
                  cases hi
                  exact ⟨job, rfl, hjob⟩
              | succ i2 =>
                  obtain ⟨job2, hjob2, hser⟩ := helem i2 jr (by simpa using hi)
                  exact ⟨job2, by simpa using hjob2, hser⟩

/-- A successfully serialized job response opens with its `stacks` array. -/
theorem serializeJobResponse_ok_stacks {ctx : SerCtx} {job : Job}
    {spl : List (Lib × Except SymError PerModuleResults)} {jr : Json}
    (h : serializeJobResponse ctx job spl = Except.ok jr) :
    ∃ stackArrays,
      serializeStacks ctx job.memory_map
        (buildModuleTables spl 0 job.memory_map ⟨[], [], []⟩).symbols_by_module_index
        job.stacks' = Except.ok stackArrays ∧
      jGet jr "stacks" = some (Json.arr stackArrays) := by
  simp only [serializeJobResponse] at h
  split at h
  case h_1 e hst => cases h
  case h_2 stackArrays hst =>
      cases h
      exact ⟨stackArrays, hst, by simp [jGet]⟩

end Samply

namespace Samply

/-- **C6.** For every request and symbol-load outcome, a successfully
serialized response consists of one `results` entry per job in request
order; each job response's `stacks` array has one array per request stack,
in order; each stack array has exactly one frame object per request frame,
in order; each frame object's `frame` field is its index within its stack;
and every frame object carries `module_offset` (the hex-formatted address)
and `module` (the memory-map entry's debug name) whether or not
symbolication succeeded. -/
theorem serializeResponse_shape (ctx : SerCtx) (req : Request)
    (spl : List (Lib × Except SymError PerModuleResults)) (R : Json)
    (h : serializeResponse ctx req spl = Except.ok R) :
    ∃ results, R = Json.obj [("results", Json.arr results)] ∧
      results.length = req.jobs.length ∧
      ∀ i jr, results.get? i = some jr → ∃ job, req.jobs.get? i = some job ∧
        ∃ stackArrays, jGet jr "stacks" = some (Json.arr stackArrays) ∧
          stackArrays.length = job.stacks'.length ∧
          ∀ j sj, stackArrays.get? j = some sj → ∃ st, job.stacks'.get? j = some st ∧
            ∃ frameJs, sj = Json.arr frameJs ∧ frameJs.length = st.frames.length ∧
              ∀ k fj, frameJs.get? k = some fj → ∃ f, st.frames.get? k = some f ∧
                jGet fj "frame" = some (Json.num k) ∧
                jGet fj "module_offset" = some (Json.str (serializeAsHexStr f.address)) ∧
                ∃ lib, job.memory_map.get? f.module_index = some lib ∧
                  jGet fj "module" = some (Json.str lib.debug_name) := by
  simp only [serializeResponse] at h
  split at h
  case h_1 e hjobs => cases h
  case h_2 results hjobs =>
      cases h
      obtain ⟨hjlen, hjelem⟩ := serializeJobs_ok req.jobs results hjobs
      refine ⟨results, rfl, hjlen, ?_⟩
      intro i jr hi
      obtain ⟨job, hjob, hser⟩ := hjelem i jr hi
      obtain ⟨stackArrays, hstacks, hget⟩ := serializeJobResponse_ok_stacks hser
      obtain ⟨hslen, hselem⟩ := serializeStacks_ok job.stacks' stackArrays hstacks
      refine ⟨job, hjob, stackArrays, hget, hslen, ?_⟩
      intro j sj hj
      obtain ⟨st, hst, frameJs, hfj, hfser⟩ := hselem j sj hj
      obtain ⟨hflen, hfelem⟩ := serializeStackFrames_ok st.frames 0 frameJs hfser
      refine ⟨st, hst, frameJs, hfj, hflen, ?_⟩
      intro k fj hk
      obtain ⟨f, hf, hone⟩ := hfelem k fj hk
      obtain ⟨h1, h2, lib, hlib, h3⟩ := serializeResponseFrame_ok_fields hone
      rw [Nat.zero_add] at h1
      exact ⟨f, hf, h1, h2, lib, hlib, h3⟩

end Samply

namespace Samply

/-- Witness for C6 at the concrete demo request (one loaded library, one
failed library). -/
theorem serializeResponse_shape_witness :
    serializeResponse ctx0 reqDemo splDemo = Except.ok respDemo ∧
    (∃ results, respDemo = Json.obj [("results", Json.arr results)] ∧
      results.length = reqDemo.jobs.length ∧
      ∀ i jr, results.get? i = some jr → ∃ job, reqDemo.jobs.get? i = some job ∧
        ∃ stackArrays, jGet jr "stacks" = some (Json.arr stackArrays) ∧
          stackArrays.length = job.stacks'.length ∧
          ∀ j sj, stackArrays.get? j = some sj → ∃ st, job.stacks'.get? j = some st ∧
            ∃ frameJs, sj = Json.arr frameJs ∧ frameJs.length = st.frames.length ∧
              ∀ k fj, frameJs.get? k = some fj → ∃ f, st.frames.get? k = some f ∧
                jGet fj "frame" = some (Json.num k) ∧
                jGet fj "module_offset" = some (Json.str (serializeAsHexStr f.address)) ∧
                ∃ lib, job.memory_map.get? f.module_index = some lib ∧
                  jGet fj "module" = some (Json.str lib.debug_name)) :=
  ⟨rfl, serializeResponse_shape ctx0 reqDemo splDemo respDemo rfl⟩

end Samply

namespace Samply

/-- **C7.** For a frame whose address lookup recorded debug info
(`set_debug_info` with a non-empty innermost-first list): the frame-level
`file` and `line` come from the last (outermost) element; `function`
reflects the outer frame (the outermost element's function name when
present, else the symbol name); and `inlines` is emitted exactly when the
list has more than one element, holding precisely the elements before the
last one, in the same innermost-first order. -/
theorem frame_debug_info_from_outer (ctx : SerCtx) (index : Nat) (f : RequestFrame)
    (mm : List Lib) (sy : List (Nat × PerModuleResults)) (lib : Lib)
    (pm : PerModuleResults) (ar0 : AddressResult) (frames : List FrameDebugInfo)
    (outer : FrameDebugInfo)
    (hmm : mm.get? f.module_index = some lib)
    (hsy : aLookup sy f.module_index = some pm)
    (har : aLookup pm.address_results f.address =
      some (some (ar0.set_debug_info frames)))
    (hlast : frames.getLast? = some outer) :
    ∃ fj, serializeResponseFrame ctx index f mm sy = Except.ok fj ∧
      jGet fj "function" = some (Json.str
        (match outer.function with
         | some h => pm.symbol_map.resolve_function_name h
         | none => pm.symbol_map.resolve_symbol_name ar0.symbol.name)) ∧
      jGet fj "file" = (outer.file_path.map (fun fp =>
        Json.str (ctx.to_api_file_path (pm.symbol_map.resolve_source_file_path fp)))) ∧
      jGet fj "line" = (match outer.line_number with
        | some line => if line ≠ 0 then some (Json.num line) else none
        | none => none) ∧
      (frames.length ≤ 1 → jGet fj "inlines" = none) ∧
      (1 < frames.length → jGet fj "inlines" =
        some (Json.arr (frames.dropLast.map (serializeInlineFrame ctx pm.symbol_map)))) := by
  unfold serializeResponseFrame
  rw [hmm]
  dsimp only
  rw [hsy]
  dsimp only
  rw [har]
  simp only [AddressResult.set_debug_info]
  rw [hlast]
  dsimp only
  refine ⟨_, rfl, ?_, ?_, ?_, ?_, ?_⟩
  · simp [jGet]
  · rcases hsz : ar0.symbol.size with _ | sz <;>
      rcases hfp : outer.file_path with _ | fp <;>
      rcases hln : outer.line_number with _ | ln <;>
      by_cases hie : frames.dropLast.isEmpty <;>
      first
        | (by_cases hl0 : ln = 0 <;> simp [jGet, hie, hl0])
        | simp [jGet, hie]
  · rcases hsz : ar0.symbol.size with _ | sz <;>
      rcases hfp : outer.file_path with _ | fp <;>
      rcases hln : outer.line_number with _ | ln <;>
      by_cases hie : frames.dropLast.isEmpty <;>
      first
        | (by_cases hl0 : ln = 0 <;> simp [jGet, hie, hl0])
        | simp [jGet, hie]
  · intro hle
    have hie : frames.dropLast.isEmpty = true := by
      have := List.length_dropLast frames
      rw [List.isEmpty_iff, ← List.length_eq_zero]
      omega
    rcases hsz : ar0.symbol.size with _ | sz <;>
      rcases hfp : outer.file_path with _ | fp <;>
      rcases hln : outer.line_number with _ | ln <;>
      first
        | (by_cases hl0 : ln = 0 <;> simp [jGet, hie, hl0])
        | simp [jGet, hie]
  · intro hgt
    have hie : frames.dropLast.isEmpty = false := by
      have := List.length_dropLast frames
      rw [List.isEmpty_eq_false, ← List.length_pos]
      omega
    rcases hsz : ar0.symbol.size with _ | sz <;>
      rcases hfp : outer.file_path with _ | fp <;>
      rcases hln : outer.line_number with _ | ln <;>
      first
        | (by_cases hl0 : ln = 0 <;> simp [jGet, hie, hl0])
        | simp [jGet, hie]

end Samply

namespace Samply

/-- Witness for C7 at a concrete two-element inline stack. -/
theorem frame_debug_info_from_outer_witness :
    [lib0].get? 0 = some lib0 ∧
      aLookup [(0, pmGood)] 0 = some pmGood ∧
      aLookup pmGood.address_results 0x10 = some (some
        (AddressResult.set_debug_info ⟨⟨0x8, some 0x20, 3⟩, none, none⟩ framesDemo)) ∧
      framesDemo.getLast? = some ⟨some 7, some 8, some 9⟩ ∧
      (∃ fj, serializeResponseFrame ctx0 0 ⟨0, 0x10⟩ [lib0] [(0, pmGood)] =
          Except.ok fj ∧
        jGet fj "function" = some (Json.str
          (match (⟨some 7, some 8, some 9⟩ : FrameDebugInfo).function with
           | some h => pmGood.symbol_map.resolve_function_name h
           | none => pmGood.symbol_map.resolve_symbol_name
               (⟨⟨0x8, some 0x20, 3⟩, none, none⟩ : AddressResult).symbol.name)) ∧
        jGet fj "file" = ((⟨some 7, some 8, some 9⟩ : FrameDebugInfo).file_path.map
          (fun fp => Json.str (ctx0.to_api_file_path
            (pmGood.symbol_map.resolve_source_file_path fp)))) ∧
        jGet fj "line" =
          (match (⟨some 7, some 8, some 9⟩ : FrameDebugInfo).line_number with
           | some line => if line ≠ 0 then some (Json.num line) else none
           | none => none) ∧
        (framesDemo.length ≤ 1 → jGet fj "inlines" = none) ∧
        (1 < framesDemo.length → jGet fj "inlines" =
          some (Json.arr (framesDemo.dropLast.map
            (serializeInlineFrame ctx0 pmGood.symbol_map))))) :=
  ⟨rfl, rfl, rfl, rfl,
    frame_debug_info_from_outer ctx0 0 ⟨0, 0x10⟩ [lib0] [(0, pmGood)] lib0 pmGood
      ⟨⟨0x8, some 0x20, 3⟩, none, none⟩ framesDemo ⟨some 7, some 8, some 9⟩
      rfl rfl rfl rfl⟩

end Samply

namespace Samply

/-- Overwriting map-insert: the inserted key reads back the new value. -/
theorem sLookup_insertA_self {β : Type} (l : List (String × β)) (k : String) (v : β) :
    sLookup (insertA l k v) k = some v := by
  unfold insertA
  by_cases h : l.any (fun p => p.1 = k)
  · rw [if_pos h]
    induction l with
    | nil => simp at h
    | cons a rest ih =>
        by_cases hak : a.1 = k
        · simp [sLookup, List.find?_cons, hak]
        · have hr : rest.any (fun p => p.1 = k) = true := by
            rw [List.any_cons] at h
            simpa [hak] using h
          have := ih hr
          simpa [sLookup, List.find?_cons, hak] using this
  · rw [if_neg h]
    have hnone : l.find? (fun p => decide (p.1 = k)) = none := by
      rw [List.find?_eq_none]
      intro x hx
      simp only [List.any_eq_true] at h
      simp only [decide_eq_true_eq]
      exact fun hxk => h ⟨x, hx, by simpa using hxk⟩
    simp [sLookup, List.find?_append, hnone, List.find?_cons]

/-- Overwriting map-insert: other keys are unaffected. -/
theorem sLookup_insertA_other {β : Type} (l : List (String × β)) (k k' : String) (v : β)
    (hne : k' ≠ k) : sLookup (insertA l k v) k' = sLookup l k' := by
  unfold insertA
  by_cases h : l.any (fun p => p.1 = k)
  · rw [if_pos h]
    clear h
    induction l with
    | nil => rfl
    | cons a rest ih =>
        by_cases hak : a.1 = k
        · have h1 : ¬ (k = k') := fun hh => hne hh.symm
          have h2 : ¬ (a.1 = k') := by rw [hak]; exact h1
          simpa [sLookup, List.find?_cons, hak, h1, h2] using ih
        · by_cases hak' : a.1 = k'
          · simp only [List.map_cons, if_neg hak]
            simp [sLookup, List.find?_cons, hak']
          · simpa [sLookup, List.find?_cons, hak, hak'] using ih
  · rw [if_neg h]
    have hlast : ¬ ((k, v).1 = k') := fun hh => hne hh.symm
    simp [sLookup, List.find?_append, List.find?_cons, hlast, Option.or_none]

/-- Looking up through a value-mapping of an association list. -/
theorem sLookup_map_value {β γ : Type} (l : List (String × β)) (g : β → γ) (k : String) :
    sLookup (l.map (fun p => (p.1, g p.2))) k = (sLookup l k).map g := by
  induction l with
  | nil => rfl
  | cons a rest ih =>
      by_cases hak : a.1 = k
      · simp [sLookup, List.find?_cons, hak]
      · simpa [sLookup, List.find?_cons, hak] using ih

/-- The memory-map loop leaves the entries of keys it never touches
unchanged. -/
theorem buildModuleTables_preserves {spl : List (Lib × Except SymError PerModuleResults)} :
    ∀ (libs : List Lib) (i : Nat) (acc : ModuleTables) (k : String),
      (∀ lib ∈ libs, moduleKey lib ≠ k) →
      sLookup (buildModuleTables spl i libs acc).found_modules k =
          sLookup acc.found_modules k ∧
        sLookup (buildModuleTables spl i libs acc).module_errors k =
          sLookup acc.module_errors k := by
  intro libs
  induction libs with
  | nil =>
      intro i acc k _
      exact ⟨rfl, rfl⟩
  | cons lib rest ih =>
      intro i acc k hk
      have hlibk : moduleKey lib ≠ k := hk lib (List.mem_cons_self _ _)
      have hrest : ∀ l2 ∈ rest, moduleKey l2 ≠ k :=
        fun l2 h2 => hk l2 (List.mem_cons_of_mem _ h2)
      unfold buildModuleTables
      obtain ⟨ihf, ihe⟩ := ih (i + 1) (buildModuleTablesStep spl acc i lib) k hrest
      refine ⟨ihf.trans ?_, ihe.trans ?_⟩ <;>
        · unfold buildModuleTablesStep
          cases hspl : splLookup spl lib with
          | none => rfl
          | some res =>
              cases res with
              | ok pm => simp [sLookup_insertA_other _ _ _ _ (fun hh => hlibk hh.symm)]
              | error e => simp [sLookup_insertA_other _ _ _ _ (fun hh => hlibk hh.symm)]

/-- After the memory-map loop, a referenced library's key maps to its load
status in `found_modules`, and to its error in `module_errors` when the
load failed. -/
theorem buildModuleTables_found {spl : List (Lib × Except SymError PerModuleResults)} :
    ∀ (libs : List Lib) (i : Nat) (acc : ModuleTables) (lib : Lib)
      (res : Except SymError PerModuleResults),
      lib ∈ libs → (libs.map moduleKey).Nodup → splLookup spl lib = some res →
      sLookup (buildModuleTables spl i libs acc).found_modules (moduleKey lib) =
          some res.isOk ∧
        ∀ e, res = Except.error e →
          sLookup (buildModuleTables spl i libs acc).module_errors (moduleKey lib) =
            some [e] := by
  intro libs
  induction libs with
  | nil =>
      intro i acc lib res hmem
      cases hmem
  | cons lib2 rest ih =>
      intro i acc lib res hmem hnd hspl
      rw [List.map_cons, List.nodup_cons] at hnd
      obtain ⟨hknotin, hndrest⟩ := hnd
      rcases List.mem_cons.mp hmem with rfl | hmemrest
      · have hrestk : ∀ l2 ∈ rest, moduleKey l2 ≠ moduleKey lib := by
          intro l2 h2 heq
          exact hknotin (heq ▸ List.mem_map_of_mem moduleKey h2)
        unfold buildModuleTables
        obtain ⟨hpf, hpe⟩ :=
          buildModuleTables_preserves rest (i + 1)
            (buildModuleTablesStep spl acc i lib) (moduleKey lib) hrestk
        rw [hpf, hpe]
        unfold buildModuleTablesStep
        rw [hspl]
        cases res with
        | ok pm =>
            refine ⟨by simp [sLookup_insertA_self, Except.isOk, Except.toBool], ?_⟩
            intro e he
            cases he
        | error e =>
            refine ⟨by simp [sLookup_insertA_self, Except.isOk, Except.toBool], ?_⟩
            intro e2 he
            cases he
            simp [sLookup_insertA_self]
      · unfold buildModuleTables
        exact ih (i + 1) (buildModuleTablesStep spl acc i lib2) lib res hmemrest hndrest hspl

end Samply

namespace Samply

/-- **C8.** Per-library failure isolation in a job: whenever the job's
stacks serialize (which they do regardless of load failures — a failed
library simply has no symbols table, so its frames fall back to the bare
`frame`/`module_offset`/`module` form), the job response is produced and
contains, for every referenced library with a recorded load outcome, a
`found_modules` entry under `"debug_name/breakpad_id"` holding `true` or
`false`, and — for a failed load — a `module_errors` entry under the same
key holding the error object `{name, message}` built from the error's
stable kind string and display text. -/
theorem job_failure_isolation (ctx : SerCtx) (job : Job)
    (spl : List (Lib × Except SymError PerModuleResults)) (stackArrays : List Json)
    (hnd : (job.memory_map.map moduleKey).Nodup)
    (hstacks : serializeStacks ctx job.memory_map
      (buildModuleTables spl 0 job.memory_map ⟨[], [], []⟩).symbols_by_module_index
      job.stacks' = Except.ok stackArrays) :
    ∃ jr, serializeJobResponse ctx job spl = Except.ok jr ∧
      jGet jr "stacks" = some (Json.arr stackArrays) ∧
      stackArrays.length = job.stacks'.length ∧
      ∀ lib ∈ job.memory_map, ∀ res, splLookup spl lib = some res →
        (∃ fm, jGet jr "found_modules" = some (Json.obj fm) ∧
          sLookup fm (moduleKey lib) = some (Json.bool res.isOk)) ∧
        ∀ e, res = Except.error e →
          ∃ me, jGet jr "module_errors" = some (Json.obj me) ∧
            sLookup me (moduleKey lib) = some (Json.arr [serializeError ctx e]) := by
  obtain ⟨hslen, -⟩ := serializeStacks_ok job.stacks' stackArrays hstacks
  have hser : serializeJobResponse ctx job spl = Except.ok (Json.obj
      ([("stacks", Json.arr stackArrays),
        ("found_modules", Json.obj
          ((buildModuleTables spl 0 job.memory_map ⟨[], [], []⟩).found_modules.map
            (fun p => (p.1, Json.bool p.2))))] ++
       (if (buildModuleTables spl 0 job.memory_map ⟨[], [], []⟩).module_errors.isEmpty
        then []
        else [("module_errors", Json.obj
          ((buildModuleTables spl 0 job.memory_map ⟨[], [], []⟩).module_errors.map
            (fun p => (p.1, Json.arr (p.2.map (fun e => serializeError ctx e))))))]))) := by
    simp only [serializeJobResponse]
    rw [hstacks]
  refine ⟨_, hser, ?_, hslen, ?_⟩
  · simp [jGet]
  · intro lib hmem res hspl
    obtain ⟨hf, he⟩ :=
      buildModuleTables_found job.memory_map 0 ⟨[], [], []⟩ lib res hmem hnd hspl
    constructor
    · refine ⟨(buildModuleTables spl 0 job.memory_map ⟨[], [], []⟩).found_modules.map
        (fun p => (p.1, Json.bool p.2)), ?_, ?_⟩
      · simp [jGet]
      · rw [sLookup_map_value, hf]
        rfl
    · intro e hres
      have hee := he e hres
      have hnil : (buildModuleTables spl 0 job.memory_map ⟨[], [], []⟩).module_errors ≠ [] := by
        intro hnil
        rw [hnil] at hee
        simp [sLookup] at hee
      have hempty : (buildModuleTables spl 0 job.memory_map
          ⟨[], [], []⟩).module_errors.isEmpty = false := by
        rw [List.isEmpty_eq_false]
        exact hnil
      refine ⟨(buildModuleTables spl 0 job.memory_map ⟨[], [], []⟩).module_errors.map
        (fun p => (p.1, Json.arr (p.2.map (fun e2 => serializeError ctx e2)))), ?_, ?_⟩
      · simp [jGet, hempty]
      · rw [sLookup_map_value _
          (fun l2 : List SymError => Json.arr (l2.map (fun e2 => serializeError ctx e2)))
          (moduleKey lib), hee]
        rfl

end Samply

namespace Samply

/-- Witness for C8 at the demo job: `lib0` loaded, `lib1` failed, both
reported, stacks still produced. -/
theorem job_failure_isolation_witness :
    (jobDemo.memory_map.map moduleKey).Nodup ∧
      serializeStacks ctx0 jobDemo.memory_map
        (buildModuleTables splDemo 0 jobDemo.memory_map ⟨[], [], []⟩).symbols_by_module_index
        jobDemo.stacks' = Except.ok stacksDemo ∧
      (∃ jr, serializeJobResponse ctx0 jobDemo splDemo = Except.ok jr ∧
        jGet jr "stacks" = some (Json.arr stacksDemo) ∧
        stacksDemo.length = jobDemo.stacks'.length ∧
        ∀ lib ∈ jobDemo.memory_map, ∀ res, splLookup splDemo lib = some res →
          (∃ fm, jGet jr "found_modules" = some (Json.obj fm) ∧
            sLookup fm (moduleKey lib) = some (Json.bool res.isOk)) ∧
          ∀ e, res = Except.error e →
            ∃ me, jGet jr "module_errors" = some (Json.obj me) ∧
              sLookup me (moduleKey lib) = some (Json.arr [serializeError ctx0 e])) := by
  have hnd : (jobDemo.memory_map.map moduleKey).Nodup := by
    unfold jobDemo moduleKey lib0 lib1
    decide
  exact ⟨hnd, rfl, job_failure_isolation ctx0 jobDemo splDemo stacksDemo hnd rfl⟩

end Samply
